import Mathlib

/-!
Verification of the workspace-manifest normalization, validation and
pullability-filtering pipeline of `search_github.py`.

The script manipulates parsed JSON documents (Python dicts, lists, strings,
numbers), a process-wide statistics counter set, and a process-wide cache of
image-inspection verdicts.  We embed the JSON data model as an inductive
`JValue`, Python dicts as insertion-ordered association lists, the statistics
and the cache as an explicit `RunState` threaded through every function, and
the opaque external `skopeo` subprocess as an oracle parameter
(`Inspector`).  Python string primitives used by the script (`strip`,
`replace`, `startswith`, `endswith`) are modelled structurally over
`List Char` so that all definitions evaluate by kernel reduction.

Places where the Python source would raise an exception on ill-typed input
(for example calling `.get` on a value that is not a dict, or `.replace` on a
value that is not a string) are modelled by an outer `Option`: a `none`
result means the call is outside the modelled domain.  Each such spot is
noted next to its definition.
-/

/-- JSON values as parsed by the script: the data model for workspace
manifests.  Objects are insertion-ordered association lists (Python dicts
preserve insertion order); numbers are integers (no claim exercises
fractional sizes). -/
inductive JValue where
  | null : JValue
  | bool : Bool → JValue
  | num : Int → JValue
  | str : String → JValue
  | arr : List JValue → JValue
  | obj : List (String × JValue) → JValue
deriving Repr

mutual

/-- Structural equality on JSON values, modelling the equality Python uses
for `in` membership tests on sets of JSON scalars. -/
def JValue.beq : JValue → JValue → Bool
  | .null, .null => true
  | .bool a, .bool b => a == b
  | .num a, .num b => a == b
  | .str a, .str b => a == b
  | .arr a, .arr b => JValue.beqArr a b
  | .obj a, .obj b => JValue.beqObj a b
  | _, _ => false

/-- Elementwise `JValue.beq` on arrays. -/
def JValue.beqArr : List JValue → List JValue → Bool
  | [], [] => true
  | x :: xs, y :: ys => JValue.beq x y && JValue.beqArr xs ys
  | _, _ => false

/-- Elementwise `JValue.beq` on object bindings. -/
def JValue.beqObj : List (String × JValue) → List (String × JValue) → Bool
  | [], [] => true
  | (k, x) :: xs, (l, y) :: ys => k = l && JValue.beq x y && JValue.beqObj xs ys
  | _, _ => false

end

/-- Python membership `v in s` for a collection of JSON values. -/
def memJ (v : JValue) : List JValue → Bool
  | [] => false
  | w :: ws => JValue.beq v w || memJ v ws

/-- A manifest document that is known to be a dict: the association list of
its top-level bindings. -/
abbrev Obj := List (String × JValue)

/-- Python `d.get(k)` / `k in d` lookup: first binding of the key.  The
modelled dicts bind each key at most once, as Python dicts do. -/
def pyGet {α : Type} : List (String × α) → String → Option α
  | [], _ => none
  | (k', v) :: rest, k => if k' = k then some v else pyGet rest k

/-- Python `d[k] = v` on a dict: replaces the value in place when the key is
present (keeping its position), appends a new binding otherwise. -/
def pySet {α : Type} : List (String × α) → String → α → List (String × α)
  | [], k, v => [(k, v)]
  | (k', v') :: rest, k, v =>
    if k' = k then (k, v) :: rest else (k', v') :: pySet rest k v

/-- Python truthiness of a JSON value (`if x:`): empty strings, zero, `None`,
`False` and empty containers are falsy. -/
def JValue.truthy : JValue → Bool
  | .null => false
  | .bool b => b
  | .num n => n != 0
  | .str s => s ≠ ""
  | .arr l => !l.isEmpty
  | .obj o => !o.isEmpty

/-- Characters removed by Python `str.strip()` with no argument. -/
def pyIsSpace (c : Char) : Bool :=
  c = ' ' || c = '\t' || c = '\n' || c = '\r' || c = Char.ofNat 11 || c = Char.ofNat 12

/-- Python `s.strip()`: drop leading and trailing whitespace. -/
def pyStrip (s : String) : String :=
  String.mk (((s.toList.dropWhile pyIsSpace).reverse.dropWhile pyIsSpace).reverse)

/-- Does the character list begin with the given pattern? -/
def listLeads : List Char → List Char → Bool
  | [], _ => true
  | _ :: _, [] => false
  | p :: ps, c :: cs => p = c && listLeads ps cs

/-- Python `s.startswith(pat)`. -/
def pyStarts (s pat : String) : Bool := listLeads pat.toList s.toList

/-- Python `s.endswith(pat)`. -/
def pyEnds (s pat : String) : Bool := listLeads pat.toList.reverse s.toList.reverse

/-- Worker for `pyReplace`.  The fuel argument, initialized to the length of
the scanned list, makes the recursion structural; each step consumes at
least one character when the pattern is nonempty, so the fuel never runs out
on the initial call. -/
def replaceGo (pat rep : List Char) : Nat → List Char → List Char
  | 0, l => l
  | _ + 1, [] => []
  | fuel + 1, c :: cs =>
    if !pat.isEmpty && listLeads pat (c :: cs) then
      rep ++ replaceGo pat rep fuel ((c :: cs).drop pat.length)
    else
      c :: replaceGo pat rep fuel cs

/-- Python `s.replace(pat, rep)` for a nonempty pattern: replaces every
non-overlapping occurrence, scanning left to right.  (The script only uses
the nonempty patterns "https://" and "http://".) -/
def pyReplace (s pat rep : String) : String :=
  String.mk (replaceGo pat.toList rep.toList s.toList.length s.toList)

/-- The process-wide `STATS` counter set of the script. -/
structure Stats where
  total_repos : Nat := 0
  profanity_filtered_workspaces : Nat := 0
  pullable_workspaces : Nat := 0
  unpullable_workspaces : Nat := 0
  blocked_registry_images : Nat := 0
  invalid_registry_urls : Nat := 0
  truncated_compatibility_workspaces : Nat := 0
  skopeo_timeouts : Nat := 0
  cached_image_hits : Nat := 0
deriving DecidableEq, Repr

/-- The mutable process state threaded through the pipeline: the `STATS`
counters and the `INSPECTED_IMAGES` cache (a dict from cache key to the
cached boolean verdict). -/
structure RunState where
  stats : Stats
  inspected : List (String × Bool)
deriving DecidableEq, Repr

/-- The all-zero statistics at the start of a run. -/
def initialRunState : RunState := { stats := {}, inspected := [] }

/-- Outcome of one invocation of the external `skopeo inspect` subprocess:
exit status zero, nonzero exit status, or `subprocess.TimeoutExpired`. -/
inductive InspectOutcome where
  | success : InspectOutcome
  | failure : InspectOutcome
  | timeout : InspectOutcome
deriving DecidableEq, Repr

/-- The opaque external inspection collaborator: given the argument vector of
the subprocess and its timeout bound, produces an outcome. -/
def Inspector : Type := List String → Nat → InspectOutcome

/-- The argument vector `skopeo inspect --raw docker://target`. -/
def dockerCmd (target : String) : List String :=
  ["skopeo", "inspect", "--raw", "docker://" ++ target]

/-- `IMAGE_NAME_PREFIX_FILTERS`: the configured block list of forbidden image
name beginnings. -/
def IMAGE_NAME_PREFIX_FILTERS : List String := ["kasmweb/"]

/-- `should_skip_image(image_name, docker_registry)`: true when the image
belongs to a blocked registry.  An absent or falsy registry argument is
modelled as `none` or `some ""`; every use in the source is guarded by a
Python truthiness test, so both behave identically. -/
def should_skip_image (image_name : String) (docker_registry : Option String) : Bool :=
  if image_name = "" then false
  else
    let image_name := pyStrip image_name
    let candidates := [image_name]
    let candidates :=
      match docker_registry with
      | some r0 =>
        if r0 ≠ "" then
          let r := pyStrip r0
          if r ≠ "" && !pyStarts image_name (r ++ "/") then
            candidates ++ [r ++ "/" ++ image_name]
          else candidates
        else candidates
      | none => candidates
    candidates.any (fun c => IMAGE_NAME_PREFIX_FILTERS.any (fun p => pyStarts c p))

/-- Increment the cache-hit counter. -/
def bumpCachedHits (s : RunState) : RunState :=
  { s with stats := { s.stats with cached_image_hits := s.stats.cached_image_hits + 1 } }

/-- Increment the skopeo-timeout counter. -/
def bumpTimeouts (s : RunState) : RunState :=
  { s with stats := { s.stats with skopeo_timeouts := s.stats.skopeo_timeouts + 1 } }

/-- Increment the blocked-registry-image counter. -/
def bumpBlocked (s : RunState) : RunState :=
  { s with stats := { s.stats with blocked_registry_images := s.stats.blocked_registry_images + 1 } }

/-- Increment the unpullable-workspace counter. -/
def bumpUnpullable (s : RunState) : RunState :=
  { s with stats := { s.stats with unpullable_workspaces := s.stats.unpullable_workspaces + 1 } }

/-- Increment the pullable-workspace counter. -/
def bumpPullable (s : RunState) : RunState :=
  { s with stats := { s.stats with pullable_workspaces := s.stats.pullable_workspaces + 1 } }

/-- Increment the truncated-compatibility counter. -/
def bumpTruncated (s : RunState) : RunState :=
  { s with stats := { s.stats with truncated_compatibility_workspaces := s.stats.truncated_compatibility_workspaces + 1 } }

/-- Increment the profanity-filtered counter. -/
def bumpProfanity (st : Stats) : Stats :=
  { st with profanity_filtered_workspaces := st.profanity_filtered_workspaces + 1 }

/-- Store a verdict in the inspection cache (`INSPECTED_IMAGES[key] = v`). -/
def cacheStore (s : RunState) (key : String) (v : Bool) : RunState :=
  { s with inspected := pySet s.inspected key v }

/-- The cache key of `skopeo_inspect`: the registry-prefixed image reference
when a truthy registry was supplied, the bare reference otherwise. -/
def cacheKeyOf (image_full_name : String) (docker_registry : Option String) : String :=
  match docker_registry with
  | some r => if r ≠ "" then r ++ "/" ++ image_full_name else image_full_name
  | none => image_full_name

/-- `skopeo_inspect(image_full_name, docker_registry)`: the Image
Reachability Checker.  Returns the verdict, the updated state, and the trace
of external subprocess invocations performed (argument vector and timeout
bound), in order. -/
def skopeo_inspect (inspect : Inspector) (image_full_name : String)
    (docker_registry : Option String) (s : RunState) :
    Bool × RunState × List (List String × Nat) :=
  let cache_key := cacheKeyOf image_full_name docker_registry
  match pyGet s.inspected cache_key with
  | some v => (v, bumpCachedHits s, [])
  | none =>
    let cmd := dockerCmd image_full_name
    match inspect cmd 45 with
    | .success => (true, cacheStore s cache_key true, [(cmd, 45)])
    | .timeout => (false, cacheStore (bumpTimeouts s) cache_key false, [(cmd, 45)])
    | .failure =>
      match docker_registry with
      | some r =>
        if r ≠ "" then
          let cmd2 := dockerCmd (r ++ "/" ++ image_full_name)
          match inspect cmd2 45 with
          | .success => (true, cacheStore s cache_key true, [(cmd, 45), (cmd2, 45)])
          | .failure => (false, cacheStore s cache_key false, [(cmd, 45), (cmd2, 45)])
          | .timeout =>
            (false, cacheStore (bumpTimeouts s) cache_key false, [(cmd, 45), (cmd2, 45)])
        else (false, cacheStore s cache_key false, [(cmd, 45)])
      | none => (false, cacheStore s cache_key false, [(cmd, 45)])

/-- One synthesized CompatibilityEntry per version value, reusing the
manifest-level image name and size (the body of the conversion loop of
`normalize_workspace_json`).  The dict literal binds the keys in source
order: version, image, uncompressed_size_mb. -/
def convertCompatibility (image_name uncompressed_size : JValue) : List JValue → List JValue
  | [] => []
  | v :: rest =>
    JValue.obj [("version", v), ("image", image_name),
                ("uncompressed_size_mb", uncompressed_size)]
      :: convertCompatibility image_name uncompressed_size rest

/-- `normalize_workspace_json(workspace_json, folder_name)`: the Schema
Normalizer.  Fails (returns `none`, the Python `None`) when the document is
not a dict.  Detects Variant B by the presence of both a name and a
friendly_name binding together with a nonempty compatibility array whose
first element is a string, and converts it; every other dict passes through
unchanged.  The result is the single-entry dict from the folder name to the
manifest. -/
def normalize_workspace_json (workspace_json : JValue) (folder_name : String) :
    Option (List (String × JValue)) :=
  match workspace_json with
  | .obj ws =>
    match pyGet ws "name", pyGet ws "friendly_name" with
    | some _, some _ =>
      match (pyGet ws "compatibility").getD (.arr []) with
      | .arr (v0 :: vs) =>
        match v0 with
        | .str s0 =>
          let workspace_copy := ws
          let image_name := (pyGet workspace_copy "name").getD (.str "")
          let uncompressed_size := (pyGet workspace_copy "uncompressed_size_mb").getD (.num 0)
          let converted := convertCompatibility image_name uncompressed_size (.str s0 :: vs)
          some [(folder_name, .obj (pySet workspace_copy "compatibility" (.arr converted)))]
        | _ => some [(folder_name, .obj ws)]
      | _ => some [(folder_name, .obj ws)]
    | _, _ => some [(folder_name, .obj ws)]
  | _ => none

/-- Python `str(v)` restricted to the values the pipeline feeds it; the
conversion of non-string values is outside the modelled domain (`none`). -/
def strOfJValue : JValue → Option String
  | .str s => some s
  | _ => none

/-- Python `' '.join(l)`: joins string elements with single spaces; raises
(modelled as `none`) when an element is not a string. -/
def joinWithSpace : List JValue → Option String
  | [] => some ""
  | [.str s] => some s
  | .str s :: v :: rest =>
    match joinWithSpace (v :: rest) with
    | some t => some (s ++ " " ++ t)
    | none => none
  | _ => none

/-- Extraction of one text field by `workspace_json.get(key, '')` followed by
the `str()` conversion: an absent binding is the empty string. -/
def strFieldOf (workspace_json : Obj) (key : String) : Option String :=
  match pyGet workspace_json key with
  | none => some ""
  | some v => strOfJValue v

/-- Extraction of the categories text: `' '.join(workspace_json.get(
'categories', []))`.  A categories value that is neither absent nor a list
is outside the modelled domain. -/
def categoriesFieldOf (workspace_json : Obj) : Option String :=
  match pyGet workspace_json "categories" with
  | none => some ""
  | some (.arr l) => joinWithSpace l
  | some _ => none

/-- The loop of `check_profanity_in_workspace` over the four fields, in
source order.  Returns the verdict, the updated counters, and the list of
strings actually submitted to the profanity detector (falsy fields are
skipped; the loop returns at the first detection). -/
def profanityLoop (containsProfanity : String → Bool) :
    List (String × String) → Stats → Bool × Stats × List String
  | [], st => (false, st, [])
  | (_, field_value) :: rest, st =>
    if field_value ≠ "" then
      if containsProfanity field_value then (true, bumpProfanity st, [field_value])
      else
        match profanityLoop containsProfanity rest st with
        | (b, st', tr) => (b, st', field_value :: tr)
    else profanityLoop containsProfanity rest st

/-- `check_profanity_in_workspace(workspace_json, workspace_name)`: the
Content Validator.  The detector is the opaque
`profanity.contains_profanity` collaborator.  Checks, in order, the
workspace name, friendly_name, description, and the space-joined
categories.  Manifests whose friendly_name or description is a non-string
value, or whose categories value is neither absent nor a list of strings,
are outside the modelled domain (`none`). -/
def check_profanity_in_workspace (containsProfanity : String → Bool)
    (workspace_json : Obj) (workspace_name : String) (st : Stats) :
    Option (Bool × Stats × List String) :=
  match strFieldOf workspace_json "friendly_name", strFieldOf workspace_json "description",
        categoriesFieldOf workspace_json with
  | some fn, some desc, some cats =>
    some (profanityLoop containsProfanity
      [("workspace_name", workspace_name), ("friendly_name", fn),
       ("description", desc), ("categories", cats)] st)
  | _, _, _ => none

/-- `MAX_COMPATIBILITY_ENTRIES`. -/
def MAX_COMPATIBILITY_ENTRIES : Nat := 10

/-- Scheme and trailing-slash sanitization applied to a truthy
docker_registry string by `check_image_pullability`. -/
def sanitizeRegistryStr (docker_registry : String) : String :=
  let r := pyReplace (pyReplace docker_registry "https://" "") "http://" ""
  if pyEnds r "/" then String.mk r.toList.dropLast else r

/-- Extraction of the docker_registry variable from the manifest.  A truthy
string is sanitized; a falsy string is kept as-is; an absent binding or a
falsy non-string behaves exactly like `None` at every later use (each use is
guarded by a Python truthiness test), so it is modelled as `none`; a truthy
non-string would raise in `.replace` and is outside the modelled domain. -/
def extractRegistry : Option JValue → Option (Option String)
  | none => some none
  | some v =>
    if v.truthy then
      match v with
      | .str r => some (some (sanitizeRegistryStr r))
      | _ => none
    else
      match v with
      | .str s => some (some s)
      | _ => some none

/-- Result of the entry loop of `check_image_pullability`: either the loop
hit a non-dict entry and the whole manifest is rejected with the state
accumulated so far, or it finished with the kept entries, the count of
entries that failed the reachability check, and the final state. -/
inductive LoopRes where
  | bad (s : RunState)
  | ok (pullable : List JValue) (unpullableCount : Nat) (s : RunState)
deriving Repr

/-- The entry loop of `check_image_pullability`, in source order: reject the
manifest at the first non-dict entry; silently skip entries with an absent
or falsy image; count and skip block-listed images; consult the Reachability
Checker otherwise, counting failures and keeping successes.  An entry whose
image is a truthy non-string would raise inside `should_skip_image` and is
outside the modelled domain (`none`). -/
def pullLoop (inspect : Inspector) (docker_registry : Option String) :
    List JValue → RunState → Option LoopRes
  | [], s => some (.ok [] 0 s)
  | entry :: rest, s =>
    match entry with
    | .obj eo =>
      match pyGet eo "image" with
      | some iv =>
        if iv.truthy then
          match iv with
          | .str image =>
            if should_skip_image image docker_registry then
              pullLoop inspect docker_registry rest (bumpBlocked s)
            else
              match skopeo_inspect inspect image docker_registry s with
              | (result, s₁, _) =>
                if result then
                  match pullLoop inspect docker_registry rest s₁ with
                  | some (.ok p c s') => some (.ok (entry :: p) c s')
                  | r => r
                else
                  match pullLoop inspect docker_registry rest s₁ with
                  | some (.ok p c s') => some (.ok p (c + 1) s')
                  | r => r
          | _ => none
        else pullLoop inspect docker_registry rest s
      | none => pullLoop inspect docker_registry rest s
    | _ => some (.bad s)

/-- `check_image_pullability(workspace_json)`: the Pullability Filter.
Returns the manifest restricted to pullable compatibility entries, or the
Python `None` when no entry survives; the outer `Option` marks inputs
outside the modelled domain.  The source copies the input dict before
mutating it; aliasing is modelled separately by the heap embedding below. -/
def check_image_pullability (inspect : Inspector) (workspace_json : Obj)
    (s : RunState) : Option (Option Obj × RunState) :=
  match extractRegistry (pyGet workspace_json "docker_registry") with
  | none => none
  | some docker_registry =>
    match (pyGet workspace_json "compatibility").getD (.arr []) with
    | .arr compatibility =>
      let original_count := compatibility.length
      let s := if original_count > MAX_COMPATIBILITY_ENTRIES then bumpTruncated s else s
      let compatibility :=
        if original_count > MAX_COMPATIBILITY_ENTRIES then
          compatibility.take MAX_COMPATIBILITY_ENTRIES
        else compatibility
      match pullLoop inspect docker_registry compatibility s with
      | none => none
      | some (.bad s') => some (none, s')
      | some (.ok pullable_images unpullable_count s') =>
        if !pullable_images.isEmpty then
          some (some (pySet workspace_json "compatibility" (.arr pullable_images)),
                bumpPullable s')
        else if unpullable_count > 0 then some (none, bumpUnpullable s')
        else some (none, s')
    | _ => some (none, s)

/-- The set comprehension of `filter_original_workspace_json` collecting the
truthy values bound at a key across the pullable entries (the surviving
image names or version strings).  The Python set is modelled by the list of
collected values with `memJ` membership.  An entry that is not a dict makes
`.get` raise: outside the modelled domain. -/
def collectTruthyField (key : String) : List JValue → Option (List JValue)
  | [] => some []
  | e :: rest =>
    match e with
    | .obj o =>
      match collectTruthyField key rest with
      | none => none
      | some vs =>
        match pyGet o key with
        | some v => if v.truthy then some (v :: vs) else some vs
        | none => some vs
    | _ => none

/-- The Variant-A comprehension of `filter_original_workspace_json`: keep the
original object entries whose image value is a member of the surviving
images.  An absent image binding is the Python `None`, never a member of a
set of truthy values.  A non-dict entry makes `.get` raise: outside the
modelled domain. -/
def filterByImageMem (pullable_images : List JValue) : List JValue → Option (List JValue)
  | [] => some []
  | e :: rest =>
    match e with
    | .obj o =>
      match filterByImageMem pullable_images rest with
      | none => none
      | some tl =>
        if memJ ((pyGet o "image").getD .null) pullable_images then some (e :: tl)
        else some tl
    | _ => none

/-- `filter_original_workspace_json(original_workspace_json,
pullable_workspace_json)`: the Original-Shape Projector.  The inner `Option`
is the Python result (`None` = rejection); the outer `Option` marks inputs
outside the modelled domain (a compatibility value that is truthy but not a
list, whose Python iteration behaviour we do not model, or entries that are
not dicts, on which `.get` raises). -/
def filter_original_workspace_json (original_workspace_json : Obj)
    (pullable_workspace_json : Option Obj) : Option (Option Obj) :=
  match pullable_workspace_json with
  | none => some none
  | some pw =>
    let filtered := original_workspace_json
    let pullable_compatibility := (pyGet pw "compatibility").getD (.arr [])
    if pullable_compatibility.truthy then
      match pullable_compatibility with
      | .arr pl =>
        match collectTruthyField "image" pl, collectTruthyField "version" pl with
        | some pullable_images, some pullable_versions =>
          let original_compatibility :=
            (pyGet original_workspace_json "compatibility").getD (.arr [])
          if original_compatibility.truthy then
            match original_compatibility with
            | .arr (c0 :: cs) =>
              match c0 with
              | .str _ =>
                let filtered_compat := (c0 :: cs).filter (fun v => memJ v pullable_versions)
                if filtered_compat.isEmpty then some none
                else some (some (pySet filtered "compatibility" (.arr filtered_compat)))
              | _ =>
                match filterByImageMem pullable_images (c0 :: cs) with
                | some filtered_compat =>
                  if filtered_compat.isEmpty then some none
                  else some (some (pySet filtered "compatibility" (.arr filtered_compat)))
                | none => none
            | _ => none
          else some none
        | _, _ => none
      | _ => none
    else some none

/-- A Python runtime value in the heap embedding used for the frame
(non-mutation) property: immutable scalars are inline, mutable containers
(lists and dicts) are references into the heap. -/
inductive PyVal where
  | vnone : PyVal
  | vbool : Bool → PyVal
  | vnum : Int → PyVal
  | vstr : String → PyVal
  | ref : Nat → PyVal
deriving DecidableEq, Repr

/-- A heap cell: a mutable Python list or dict. -/
inductive Cell where
  | listC : List PyVal → Cell
  | dictC : List (String × PyVal) → Cell
deriving DecidableEq, Repr

/-- The heap: cells addressed by allocation order; allocation appends. -/
abbrev Heap := List Cell

/-- Python truthiness of a runtime value; containers are truthy when
nonempty.  (A dangling reference never occurs on well-formed inputs.) -/
def pvTruthy (h : Heap) : PyVal → Bool
  | .vnone => false
  | .vbool b => b
  | .vnum n => n != 0
  | .vstr s => s ≠ ""
  | .ref i =>
    match h.get? i with
    | some (.listC l) => !l.isEmpty
    | some (.dictC d) => !d.isEmpty
    | none => false

/-- Heap-model docker_registry extraction, mirroring `extractRegistry`: a
truthy string is sanitized, falsy values behave like an absent registry, and
a truthy non-string (which would raise in `.replace`) is outside the
modelled domain. -/
def heapRegistry (h : Heap) (b : List (String × PyVal)) : Option (Option String) :=
  match pyGet b "docker_registry" with
  | none => some none
  | some v =>
    if pvTruthy h v then
      match v with
      | .vstr r => some (some (sanitizeRegistryStr r))
      | _ => none
    else
      match v with
      | .vstr s => some (some s)
      | _ => some none

/-- Result of the heap-model entry loop; identical in shape to `LoopRes` but
over runtime values.  The kept entries are the original entry references
(Python appends the aliases, not copies). -/
inductive HLoopRes where
  | bad (s : RunState)
  | ok (pullable : List PyVal) (unpullableCount : Nat) (s : RunState)
deriving Repr

/-- The entry loop of `check_image_pullability` over the heap model.  The
loop only reads the heap; it performs no allocation and no store. -/
def heapPullLoop (inspect : Inspector) (h : Heap) (docker_registry : Option String) :
    List PyVal → RunState → Option HLoopRes
  | [], s => some (.ok [] 0 s)
  | entry :: rest, s =>
    match entry with
    | .ref i =>
      match h.get? i with
      | some (.dictC eo) =>
        match pyGet eo "image" with
        | some iv =>
          if pvTruthy h iv then
            match iv with
            | .vstr image =>
              if should_skip_image image docker_registry then
                heapPullLoop inspect h docker_registry rest (bumpBlocked s)
              else
                match skopeo_inspect inspect image docker_registry s with
                | (result, s₁, _) =>
                  if result then
                    match heapPullLoop inspect h docker_registry rest s₁ with
                    | some (.ok p c s') => some (.ok (entry :: p) c s')
                    | r => r
                  else
                    match heapPullLoop inspect h docker_registry rest s₁ with
                    | some (.ok p c s') => some (.ok p (c + 1) s')
                    | r => r
            | _ => none
          else heapPullLoop inspect h docker_registry rest s
        | none => heapPullLoop inspect h docker_registry rest s
      | some (.listC _) => some (.bad s)
      | none => none
    | _ => some (.bad s)

/-- Tail of the heap-model Pullability Filter once the compatibility list has
been fetched: truncate, run the loop, and on success allocate the fresh list
of survivors and store it under the compatibility key of the copy (the cell
at index `c`); the input dict is never written. -/
def heapCheckWithList (inspect : Inspector) (h₁ : Heap) (c : Nat)
    (b : List (String × PyVal)) (docker_registry : Option String)
    (compatibility : List PyVal) (s : RunState) :
    Option (Option PyVal × RunState × Heap) :=
  let original_count := compatibility.length
  let s := if original_count > MAX_COMPATIBILITY_ENTRIES then bumpTruncated s else s
  let compatibility :=
    if original_count > MAX_COMPATIBILITY_ENTRIES then
      compatibility.take MAX_COMPATIBILITY_ENTRIES
    else compatibility
  match heapPullLoop inspect h₁ docker_registry compatibility s with
  | none => none
  | some (.bad s') => some (none, s', h₁)
  | some (.ok pullable_images unpullable_count s') =>
    if !pullable_images.isEmpty then
      let li := h₁.length
      let h₂ := h₁ ++ [Cell.listC pullable_images]
      let h₃ := h₂.set c (Cell.dictC (pySet b "compatibility" (PyVal.ref li)))
      some (some (.ref c), bumpPullable s', h₃)
    else if unpullable_count > 0 then some (none, bumpUnpullable s', h₁)
    else some (none, s', h₁)

/-- `check_image_pullability` over the heap model: the argument `d` is the
reference to the caller's manifest dict.  The function first allocates a
shallow copy of it (sharing all value references) and only ever writes that
copy. -/
def check_image_pullability_heap (inspect : Inspector) (h : Heap) (d : Nat)
    (s : RunState) : Option (Option PyVal × RunState × Heap) :=
  match h.get? d with
  | some (.dictC b) =>
    let h₁ := h ++ [Cell.dictC b]
    let c := h.length
    match heapRegistry h₁ b with
    | none => none
    | some docker_registry =>
      match pyGet b "compatibility" with
      | none => heapCheckWithList inspect h₁ c b docker_registry [] s
      | some (.ref i) =>
        match h₁.get? i with
        | some (.listC compatibility) =>
          heapCheckWithList inspect h₁ c b docker_registry compatibility s
        | some (.dictC _) => some (none, s, h₁)
        | none => none
      | some _ => some (none, s, h₁)
  | _ => none

/-- Heap-model set comprehension over the pullable entries, mirroring
`collectTruthyField`. -/
def collectTruthyFieldPV (h : Heap) (key : String) : List PyVal → Option (List PyVal)
  | [] => some []
  | e :: rest =>
    match e with
    | .ref i =>
      match h.get? i with
      | some (.dictC o) =>
        match collectTruthyFieldPV h key rest with
        | none => none
        | some vs =>
          match pyGet o key with
          | some v => if pvTruthy h v then some (v :: vs) else some vs
          | none => some vs
      | _ => none
    | _ => none

/-- Heap-model Variant-A comprehension, mirroring `filterByImageMem`.
Membership uses reference identity for container values; the claims it
serves never compare containers. -/
def filterByImageMemPV (h : Heap) (pullable_images : List PyVal) :
    List PyVal → Option (List PyVal)
  | [] => some []
  | e :: rest =>
    match e with
    | .ref i =>
      match h.get? i with
      | some (.dictC o) =>
        match filterByImageMemPV h pullable_images rest with
        | none => none
        | some tl =>
          if ((pyGet o "image").getD .vnone) ∈ pullable_images then some (e :: tl)
          else some tl
      | _ => none
    | _ => none

/-- Final step of the heap-model projector on a nonempty filtered array:
allocate the fresh filtered list and store it under the compatibility key of
the copy at index `c`. -/
def heapProjectStore (h₁ : Heap) (c : Nat) (ob : List (String × PyVal))
    (filtered_compat : List PyVal) : Option PyVal × Heap :=
  let li := h₁.length
  let h₂ := h₁ ++ [Cell.listC filtered_compat]
  let h₃ := h₂.set c (Cell.dictC (pySet ob "compatibility" (PyVal.ref li)))
  (some (.ref c), h₃)

/-- `filter_original_workspace_json` over the heap model: `dOrig` is the
reference to the caller's original manifest dict and `pw` the optional
reference to the filtered canonical manifest.  The function allocates a
shallow copy of the original and only ever writes that copy. -/
def filter_original_workspace_json_heap (h : Heap) (dOrig : Nat) (pw : Option Nat) :
    Option (Option PyVal × Heap) :=
  match pw with
  | none => some (none, h)
  | some dp =>
    match h.get? dOrig, h.get? dp with
    | some (.dictC ob), some (.dictC pb) =>
      let h₁ := h ++ [Cell.dictC ob]
      let c := h.length
      match pyGet pb "compatibility" with
      | none => some (none, h₁)
      | some pv =>
        if pvTruthy h₁ pv then
          match pv with
          | .ref i =>
            match h₁.get? i with
            | some (.listC pl) =>
              match collectTruthyFieldPV h₁ "image" pl,
                    collectTruthyFieldPV h₁ "version" pl with
              | some pullable_images, some pullable_versions =>
                match pyGet ob "compatibility" with
                | none => some (none, h₁)
                | some ov =>
                  if pvTruthy h₁ ov then
                    match ov with
                    | .ref j =>
                      match h₁.get? j with
                      | some (.listC ol) =>
                        match ol with
                        | [] => some (none, h₁)
                        | c0 :: cs =>
                          match c0 with
                          | .vstr _ =>
                            let filtered_compat :=
                              (c0 :: cs).filter (fun v => v ∈ pullable_versions)
                            if filtered_compat.isEmpty then some (none, h₁)
                            else some (heapProjectStore h₁ c ob filtered_compat)
                          | _ =>
                            match filterByImageMemPV h₁ pullable_images (c0 :: cs) with
                            | some filtered_compat =>
                              if filtered_compat.isEmpty then some (none, h₁)
                              else some (heapProjectStore h₁ c ob filtered_compat)
                            | none => none
                      | _ => none
                    | _ => none
                  else some (none, h₁)
              | _, _ => none
            | _ => none
          | _ => none
        else some (none, h₁)
    | _, _ => none

/-- Always-succeeding concrete inspector, for witnesses. -/
def inspectorAllSuccess : Inspector := fun _ _ => .success

/-- Always-timing-out concrete inspector, for witnesses and
counterexamples. -/
def inspectorAllTimeout : Inspector := fun _ _ => .timeout

/-- Looking up the key just stored finds the stored value. -/
theorem pyGet_pySet_self {α : Type} (m : List (String × α)) (k : String) (v : α) :
    pyGet (pySet m k v) k = some v := by
  induction m with
  | nil => simp [pySet, pyGet]
  | cons kv rest ih =>
    obtain ⟨k', v'⟩ := kv
    by_cases h : k' = k <;> simp [pySet, pyGet, h, ih]

/-- Storing one key does not disturb the binding of another. -/
theorem pyGet_pySet_ne {α : Type} (m : List (String × α)) (k k' : String) (v : α)
    (h : k' ≠ k) : pyGet (pySet m k v) k' = pyGet m k' := by
  induction m with
  | nil => simp [pySet, pyGet, Ne.symm h]
  | cons kv rest ih =>
    obtain ⟨k₀, v₀⟩ := kv
    by_cases h₀ : k₀ = k
    · subst h₀
      simp [pySet, pyGet, Ne.symm h]
    · simp [pySet, pyGet, h₀, ih]

/-- Storing at a key twice keeps only the second value. -/
theorem pySet_pySet_self {α : Type} (m : List (String × α)) (k : String) (v w : α) :
    pySet (pySet m k v) k w = pySet m k w := by
  induction m with
  | nil => simp [pySet]
  | cons kv rest ih =>
    obtain ⟨k₀, v₀⟩ := kv
    by_cases h₀ : k₀ = k <;> simp [pySet, h₀, ih]

/-- The candidate references tested by the Block-List Filter, as the amended
claim describes them: the whitespace-trimmed reference, plus the
registry-prefixed reference when a nonblank registry is supplied and the
trimmed reference does not already carry the registry prefix. -/
def specCandidates (image : String) (docker_registry : Option String) : List String :=
  let i := pyStrip image
  match docker_registry with
  | none => [i]
  | some r0 =>
    if r0 = "" then [i]
    else
      let r := pyStrip r0
      if r = "" then [i]
      else if pyStarts i (r ++ "/") then [i]
      else [i, r ++ "/" ++ i]

/-- C7 counterexample: the claim asserts
`should_skip("other/foo", registry="kasmweb") == False`, but the code builds
the registry-prefixed candidate "kasmweb/other/foo", which starts with the
blocked prefix "kasmweb/", so the filter returns true. -/
theorem c7_counterexample : should_skip_image "other/foo" (some "kasmweb") = true := by
  decide

/-- C7 (amended): the Block-List Filter returns false for an empty image
reference, and otherwise returns true iff some candidate starts with a
configured disallowed prefix, where the candidates are the trimmed reference
plus — only when a nonblank registry is supplied and the reference does not
already start with the registry prefix — the registry-prefixed reference.
In particular both quoted positive examples hold, and
should_skip("other/foo", registry="kasmweb") is true as well, via the
registry-prefixed candidate. -/
theorem c7_block_list_contract :
    (∀ docker_registry, should_skip_image "" docker_registry = false) ∧
    (∀ image docker_registry,
        should_skip_image image docker_registry =
          if image = "" then false
          else (specCandidates image docker_registry).any
                 (fun c => IMAGE_NAME_PREFIX_FILTERS.any (fun p => pyStarts c p))) ∧
    should_skip_image "kasmweb/foo" none = true ∧
    should_skip_image "foo" (some "kasmweb") = true ∧
    should_skip_image "other/foo" (some "kasmweb") = true := by
  refine ⟨fun dr => by simp [should_skip_image], fun image dr => ?_, by decide, by decide, by decide⟩
  by_cases hi : image = ""
  · simp [should_skip_image, hi]
  · cases dr with
    | none => simp [should_skip_image, specCandidates, hi]
    | some r0 =>
      by_cases hr0 : r0 = ""
      · simp [should_skip_image, specCandidates, hi, hr0]
      · by_cases hr : pyStrip r0 = ""
        · simp [should_skip_image, specCandidates, hi, hr0, hr]
        · by_cases hpre : pyStarts (pyStrip image) (pyStrip r0 ++ "/")
          · simp [should_skip_image, specCandidates, hi, hr0, hr, hpre]
          · simp [should_skip_image, specCandidates, hi, hr0, hr, hpre]

/-- C9: the Schema Normalizer fails on every non-object document, and on
every object document returns a single-entry mapping from the fallback
folder name to the (possibly converted) manifest. -/
theorem c9_normalizer_shape :
    (∀ (v : JValue) (folder_name : String), (∀ o, v ≠ JValue.obj o) →
        normalize_workspace_json v folder_name = none) ∧
    (∀ (o : Obj) (folder_name : String), ∃ w,
        normalize_workspace_json (.obj o) folder_name = some [(folder_name, w)]) := by
  constructor
  · intro v folder_name h
    cases v with
    | obj o => exact absurd rfl (h o)
    | null => rfl
    | bool b => rfl
    | num n => rfl
    | str s => rfl
    | arr l => rfl
  · intro o folder_name
    simp only [normalize_workspace_json]
    repeat' split
    all_goals exact ⟨_, rfl⟩

/-- C9 witness: a non-object document (an array) is rejected, and the empty
object normalizes to a single-entry mapping under the fallback name. -/
theorem c9_normalizer_shape_witness :
    normalize_workspace_json (.arr []) "app" = none ∧
    ∃ w, normalize_workspace_json (.obj []) "app" = some [("app", w)] :=
  ⟨c9_normalizer_shape.1 (.arr []) "app" (fun o h => JValue.noConfusion h),
   c9_normalizer_shape.2 [] "app"⟩

/-- The conversion loop emits one entry per source value. -/
theorem convertCompatibility_length (image_name uncompressed_size : JValue)
    (l : List JValue) :
    (convertCompatibility image_name uncompressed_size l).length = l.length := by
  induction l with
  | nil => rfl
  | cons v rest ih => simp [convertCompatibility, ih]

/-- The i-th converted entry binds version to the i-th source value and image
and uncompressed_size_mb to the manifest-level values. -/
theorem convertCompatibility_get (image_name uncompressed_size : JValue)
    (l : List JValue) (i : Nat)
    (hi : i < (convertCompatibility image_name uncompressed_size l).length)
    (hj : i < l.length) :
    (convertCompatibility image_name uncompressed_size l).get ⟨i, hi⟩ =
      JValue.obj [("version", l.get ⟨i, hj⟩), ("image", image_name),
                  ("uncompressed_size_mb", uncompressed_size)] := by
  induction l generalizing i with
  | nil => exact absurd hj (by simp)
  | cons v rest ih =>
    cases i with
    | zero => rfl
    | succ n =>
      exact ih n (by simpa [convertCompatibility] using hi) (by simpa using hj)

/-- C2: on a Variant-B document (name and friendly_name present, nonempty
compatibility array with a string head), the normalized manifest binds
compatibility to the converted array, which has the same length and order as
the source array, each entry carrying the corresponding source value as its
version and the manifest-level name and size as its image and
uncompressed_size_mb. -/
theorem c2_variant_b_synthesis (ws : Obj) (folder_name : String) (s0 : String)
    (vs : List JValue)
    (hname : (pyGet ws "name").isSome)
    (hfriendly : (pyGet ws "friendly_name").isSome)
    (hcompat : pyGet ws "compatibility" = some (.arr (.str s0 :: vs))) :
    (normalize_workspace_json (.obj ws) folder_name =
        some [(folder_name, .obj (pySet ws "compatibility"
          (.arr (convertCompatibility ((pyGet ws "name").getD (.str ""))
                  ((pyGet ws "uncompressed_size_mb").getD (.num 0))
                  (.str s0 :: vs)))))]) ∧
    (∀ (img sz : JValue) (l : List JValue),
        (convertCompatibility img sz l).length = l.length) ∧
    (∀ (img sz : JValue) (l : List JValue) (i : Nat)
        (hi : i < (convertCompatibility img sz l).length) (hj : i < l.length),
        (convertCompatibility img sz l).get ⟨i, hi⟩ =
          JValue.obj [("version", l.get ⟨i, hj⟩), ("image", img),
                      ("uncompressed_size_mb", sz)]) := by
  refine ⟨?_, convertCompatibility_length, convertCompatibility_get⟩
  obtain ⟨nv, hn⟩ := Option.isSome_iff_exists.mp hname
  obtain ⟨fv, hf⟩ := Option.isSome_iff_exists.mp hfriendly
  simp only [normalize_workspace_json, hn, hf, hcompat, Option.getD_some]

/-- C2 witness: a concrete Variant-B document with two version strings. -/
theorem c2_variant_b_synthesis_witness :
    normalize_workspace_json
        (.obj [("name", .str "n"), ("friendly_name", .str "f"),
               ("uncompressed_size_mb", .num 7),
               ("compatibility", .arr [.str "1.1", .str "1.2"])]) "fold" =
      some [("fold", .obj [("name", .str "n"), ("friendly_name", .str "f"),
               ("uncompressed_size_mb", .num 7),
               ("compatibility", .arr
                 [.obj [("version", .str "1.1"), ("image", .str "n"),
                        ("uncompressed_size_mb", .num 7)],
                  .obj [("version", .str "1.2"), ("image", .str "n"),
                        ("uncompressed_size_mb", .num 7)]])])] := by
  have h := (c2_variant_b_synthesis
    [("name", .str "n"), ("friendly_name", .str "f"),
     ("uncompressed_size_mb", .num 7),
     ("compatibility", .arr [.str "1.1", .str "1.2"])] "fold" "1.1" [.str "1.2"]
    rfl rfl rfl).1
  exact h

/-- The field loop touches the profanity counter exactly when it rejects, and
then exactly once. -/
theorem profanityLoop_state (cp : String → Bool) :
    ∀ (fields : List (String × String)) (st : Stats),
      (profanityLoop cp fields st).2.1 =
        if (profanityLoop cp fields st).1 then bumpProfanity st else st := by
  intro fields
  induction fields with
  | nil => intro st; rfl
  | cons fv rest ih =>
    intro st
    obtain ⟨fname, fval⟩ := fv
    by_cases hv : fval = ""
    · simpa [profanityLoop, hv] using ih st
    · by_cases hcp : cp fval
      · simp [profanityLoop, hv, hcp]
      · simpa [profanityLoop, hv, hcp] using ih st

/-- A field that is empty or clean passes through the loop, contributing its
value to the consulted trace exactly when it is nonempty. -/
theorem profanityLoop_pass (cp : String → Bool) (fname fval : String)
    (rest : List (String × String)) (st : Stats)
    (h : ¬ (fval ≠ "" ∧ cp fval = true)) :
    profanityLoop cp ((fname, fval) :: rest) st =
      ((profanityLoop cp rest st).1, (profanityLoop cp rest st).2.1,
       (if fval = "" then [] else [fval]) ++ (profanityLoop cp rest st).2.2) := by
  by_cases hv : fval = ""
  · simp [profanityLoop, hv]
  · have hcp : cp fval = false := by
      cases hcp : cp fval
      · rfl
      · exact absurd ⟨hv, hcp⟩ h
    simp [profanityLoop, hv, hcp]

/-- A nonempty field containing disallowed content stops the loop at once:
the loop rejects, bumps the counter, and consults no later field. -/
theorem profanityLoop_stop (cp : String → Bool) (fname fval : String)
    (rest : List (String × String)) (st : Stats)
    (hv : fval ≠ "") (hcp : cp fval = true) :
    profanityLoop cp ((fname, fval) :: rest) st = (true, bumpProfanity st, [fval]) := by
  simp [profanityLoop, hv, hcp]

/-- C8: the Content Validator checks the workspace name, friendly_name,
description and space-joined categories in that order; it increments the
profanity counter exactly once when it rejects and not at all otherwise; a
manifest whose joined categories contain disallowed content is rejected even
when the earlier fields are clean, after consulting exactly the nonempty
earlier fields; and a disallowed workspace name stops the check before any
other field is consulted. -/
theorem c8_content_validator (cp : String → Bool) (ws : Obj) (name : String)
    (st : Stats) (fn desc cats : String)
    (hfn : strFieldOf ws "friendly_name" = some fn)
    (hdesc : strFieldOf ws "description" = some desc)
    (hcats : categoriesFieldOf ws = some cats) :
    (∀ b st' tr, check_profanity_in_workspace cp ws name st = some (b, st', tr) →
        st'.profanity_filtered_workspaces =
          st.profanity_filtered_workspaces + (if b then 1 else 0)) ∧
    (¬ (name ≠ "" ∧ cp name = true) → ¬ (fn ≠ "" ∧ cp fn = true) →
     ¬ (desc ≠ "" ∧ cp desc = true) → cats ≠ "" → cp cats = true →
        check_profanity_in_workspace cp ws name st =
          some (true, bumpProfanity st,
                ([name, fn, desc].filter (fun v => v != "")) ++ [cats])) ∧
    (name ≠ "" → cp name = true →
        check_profanity_in_workspace cp ws name st = some (true, bumpProfanity st, [name])) := by
  have hopen : check_profanity_in_workspace cp ws name st =
      some (profanityLoop cp
        [("workspace_name", name), ("friendly_name", fn),
         ("description", desc), ("categories", cats)] st) := by
    simp only [check_profanity_in_workspace, hfn, hdesc, hcats]
  refine ⟨?_, ?_, ?_⟩
  · intro b st' tr h
    rw [hopen] at h
    have hb : (profanityLoop cp
        [("workspace_name", name), ("friendly_name", fn),
         ("description", desc), ("categories", cats)] st) = (b, st', tr) :=
      Option.some.inj h
    have := profanityLoop_state cp
      [("workspace_name", name), ("friendly_name", fn),
       ("description", desc), ("categories", cats)] st
    rw [hb] at this
    simp only at this
    cases b
    · simp only [if_neg Bool.false_ne_true] at this
      simp [this]
    · simp only [if_pos rfl] at this
      simp [this, bumpProfanity]
  · intro h₁ h₂ h₃ hc₁ hc₂
    rw [hopen, profanityLoop_pass cp _ _ _ _ h₁, profanityLoop_pass cp _ _ _ _ h₂,
        profanityLoop_pass cp _ _ _ _ h₃, profanityLoop_stop cp _ _ _ _ hc₁ hc₂]
    by_cases hn : name = "" <;> by_cases hf : fn = "" <;> by_cases hd : desc = "" <;>
      simp [hn, hf, hd]
  · intro hn hcp
    rw [hopen, profanityLoop_stop cp _ _ _ _ hn hcp]

/-- C8 witness: a clean name, friendly_name and empty description, with a
disallowed term inside the joined categories: rejected with one counter
bump, after consulting exactly the nonempty fields. -/
theorem c8_content_validator_witness :
    check_profanity_in_workspace (fun s => pyStarts s "bad")
        [("friendly_name", .str "nice"), ("description", .str ""),
         ("categories", .arr [.str "badcat", .str "x"])] "wsname" {} =
      some (true, bumpProfanity {}, ["wsname", "nice", "badcat x"]) := by
  have h := (c8_content_validator (fun s => pyStarts s "bad")
    [("friendly_name", .str "nice"), ("description", .str ""),
     ("categories", .arr [.str "badcat", .str "x"])] "wsname" {} "nice" "" "badcat x"
    rfl rfl rfl).2.1 (by decide) (by decide) (by decide) (by decide) (by decide)
  simpa using h

/-- After any call, the cache binds the cache key to the verdict the call
returned (success and failure alike are memoized before returning). -/
theorem skopeo_inspect_caches (inspect : Inspector) (image : String)
    (docker_registry : Option String) (s : RunState) :
    pyGet ((skopeo_inspect inspect image docker_registry s).2.1).inspected
        (cacheKeyOf image docker_registry) =
      some (skopeo_inspect inspect image docker_registry s).1 := by
  unfold skopeo_inspect
  cases hhit : pyGet s.inspected (cacheKeyOf image docker_registry) with
  | some v => simp [bumpCachedHits, hhit]
  | none =>
    cases h₁ : inspect (dockerCmd image) 45 with
    | success => simp [hhit, h₁, cacheStore, pyGet_pySet_self]
    | timeout => simp [hhit, h₁, cacheStore, bumpTimeouts, pyGet_pySet_self]
    | failure =>
      cases docker_registry with
      | none => simp [hhit, h₁, cacheStore, pyGet_pySet_self]
      | some r =>
        by_cases hr : r = ""
        · subst hr
          simp [hhit, h₁, cacheStore, pyGet_pySet_self]
        · cases h₂ : inspect (dockerCmd (r ++ "/" ++ image)) 45 with
          | success => simp [hhit, h₁, hr, h₂, cacheStore, pyGet_pySet_self]
          | failure => simp [hhit, h₁, hr, h₂, cacheStore, pyGet_pySet_self]
          | timeout => simp [hhit, h₁, hr, h₂, cacheStore, bumpTimeouts, pyGet_pySet_self]

/-- C4: calling the Reachability Checker twice on the same image and registry
performs the external inspection only in the first call — the second call
issues no subprocess invocation at all, increments the cache-hit counter,
and returns the very verdict of the first call, for failure verdicts just as
for success verdicts. -/
theorem c4_memoization (inspect : Inspector) (image : String)
    (docker_registry : Option String) (s : RunState) (v₁ : Bool) (s₁ : RunState)
    (t₁ : List (List String × Nat))
    (h : skopeo_inspect inspect image docker_registry s = (v₁, s₁, t₁)) :
    skopeo_inspect inspect image docker_registry s₁ = (v₁, bumpCachedHits s₁, []) := by
  have hc := skopeo_inspect_caches inspect image docker_registry s
  rw [h] at hc
  simp only at hc
  simp [skopeo_inspect, hc]

/-- C4 witness: a second lookup of a failure verdict cached by a first call
that timed out. -/
theorem c4_memoization_witness :
    skopeo_inspect inspectorAllTimeout "img" (some "reg")
        { stats := { skopeo_timeouts := 1 }, inspected := [("reg/img", false)] } =
      (false,
       bumpCachedHits { stats := { skopeo_timeouts := 1 }, inspected := [("reg/img", false)] },
       []) :=
  c4_memoization inspectorAllTimeout "img" (some "reg") initialRunState false
    { stats := { skopeo_timeouts := 1 }, inspected := [("reg/img", false)] }
    [(dockerCmd "img", 45)] rfl

/-- C3 counterexample: with a supplied registry and a cold cache, a timeout
of the first external inspection does not retry with the registry prefix:
the trace holds exactly one invocation, refuting the claimed
retry-on-any-non-success (including timeout) behaviour. -/
theorem c3_counterexample :
    (skopeo_inspect inspectorAllTimeout "img" (some "reg") initialRunState).2.2 =
      [(dockerCmd "img", 45)] := rfl

/-- C3 (amended): on a cache miss with a supplied registry, every external
invocation is bounded by the 45-unit timeout; an ordinary (nonzero exit
status) failure of the first inspection retries exactly once against the
registry-prefixed reference; a timeout of the first inspection does not
retry, yields a not-pullable verdict and increments the timeout counter; and
a timeout of the retry likewise yields not-pullable and increments the
counter. -/
theorem c3_retry_on_failure (inspect : Inspector) (image r : String) (s : RunState)
    (hr : r ≠ "")
    (hmiss : pyGet s.inspected (r ++ "/" ++ image) = none)
    (v : Bool) (s' : RunState) (tr : List (List String × Nat))
    (h : skopeo_inspect inspect image (some r) s = (v, s', tr)) :
    (∀ c n, (c, n) ∈ tr → n = 45) ∧
    (inspect (dockerCmd image) 45 = .failure →
        tr = [(dockerCmd image, 45), (dockerCmd (r ++ "/" ++ image), 45)]) ∧
    (inspect (dockerCmd image) 45 = .timeout →
        tr = [(dockerCmd image, 45)] ∧ v = false ∧
        s'.stats.skopeo_timeouts = s.stats.skopeo_timeouts + 1) ∧
    (inspect (dockerCmd image) 45 = .failure →
     inspect (dockerCmd (r ++ "/" ++ image)) 45 = .timeout →
        v = false ∧ s'.stats.skopeo_timeouts = s.stats.skopeo_timeouts + 1) := by
  have hkey : cacheKeyOf image (some r) = r ++ "/" ++ image := by
    simp [cacheKeyOf, hr]
  simp only [skopeo_inspect, hkey, hmiss] at h
  replace h := h.symm
  cases h₁ : inspect (dockerCmd image) 45 with
  | success =>
    rw [h₁] at h
    simp only at h
    injection h with hv h'
    injection h' with hs ht
    subst hv; subst hs; subst ht
    refine ⟨?_, ?_, ?_, ?_⟩
    · intro c n hm
      simp only [List.mem_singleton] at hm
      exact congrArg Prod.snd hm
    · intro hc; exact InspectOutcome.noConfusion hc
    · intro hc; exact InspectOutcome.noConfusion hc
    · intro hc _; exact InspectOutcome.noConfusion hc
  | timeout =>
    rw [h₁] at h
    simp only at h
    injection h with hv h'
    injection h' with hs ht
    subst hv; subst hs; subst ht
    refine ⟨?_, ?_, ?_, ?_⟩
    · intro c n hm
      simp only [List.mem_singleton] at hm
      exact congrArg Prod.snd hm
    · intro hc; exact InspectOutcome.noConfusion hc
    · intro _; exact ⟨rfl, rfl, by simp [cacheStore, bumpTimeouts]⟩
    · intro hc _; exact InspectOutcome.noConfusion hc
  | failure =>
    rw [h₁] at h
    simp only [if_pos hr] at h
    cases h₂ : inspect (dockerCmd (r ++ "/" ++ image)) 45 with
    | success =>
      rw [h₂] at h
      simp only at h
      injection h with hv h'
      injection h' with hs ht
      subst hv; subst hs; subst ht
      refine ⟨?_, fun _ => rfl, ?_, ?_⟩
      · intro c n hm
        simp only [List.mem_cons, List.mem_singleton, List.not_mem_nil, or_false] at hm
        rcases hm with hm | hm <;> exact congrArg Prod.snd hm
      · intro hc; exact InspectOutcome.noConfusion hc
      · intro _ hc; exact InspectOutcome.noConfusion hc
    | failure =>
      rw [h₂] at h
      simp only at h
      injection h with hv h'
      injection h' with hs ht
      subst hv; subst hs; subst ht
      refine ⟨?_, fun _ => rfl, ?_, ?_⟩
      · intro c n hm
        simp only [List.mem_cons, List.mem_singleton, List.not_mem_nil, or_false] at hm
        rcases hm with hm | hm <;> exact congrArg Prod.snd hm
      · intro hc; exact InspectOutcome.noConfusion hc
      · intro _ hc; exact InspectOutcome.noConfusion hc
    | timeout =>
      rw [h₂] at h
      simp only at h
      injection h with hv h'
      injection h' with hs ht
      subst hv; subst hs; subst ht
      refine ⟨?_, fun _ => rfl, ?_, ?_⟩
      · intro c n hm
        simp only [List.mem_cons, List.mem_singleton, List.not_mem_nil, or_false] at hm
        rcases hm with hm | hm <;> exact congrArg Prod.snd hm
      · intro hc; exact InspectOutcome.noConfusion hc
      · intro _ _; exact ⟨rfl, by simp [cacheStore, bumpTimeouts]⟩

/-- C3 witness: a first-call timeout with a supplied registry yields a
not-pullable verdict without any retry and with one timeout-counter
increment. -/
theorem c3_retry_on_failure_witness :
    inspectorAllTimeout (dockerCmd "img") 45 = .timeout ∧
    (skopeo_inspect inspectorAllTimeout "img" (some "reg") initialRunState).2.2 =
        [(dockerCmd "img", 45)] ∧
    (skopeo_inspect inspectorAllTimeout "img" (some "reg") initialRunState).1 = false ∧
    (skopeo_inspect inspectorAllTimeout "img" (some "reg")
          initialRunState).2.1.stats.skopeo_timeouts =
      initialRunState.stats.skopeo_timeouts + 1 := by
  have h := (c3_retry_on_failure inspectorAllTimeout "img" "reg" initialRunState
    (by decide) rfl
    (skopeo_inspect inspectorAllTimeout "img" (some "reg") initialRunState).1
    (skopeo_inspect inspectorAllTimeout "img" (some "reg") initialRunState).2.1
    (skopeo_inspect inspectorAllTimeout "img" (some "reg") initialRunState).2.2
    rfl).2.2.1 rfl
  exact ⟨rfl, h.1, h.2.1, h.2.2⟩

/-- The three workspace-level counters the Reachability Checker never
touches, plus the blocked-image counter. -/
def sameWsCounters (s s' : RunState) : Prop :=
  s'.stats.truncated_compatibility_workspaces = s.stats.truncated_compatibility_workspaces ∧
  s'.stats.pullable_workspaces = s.stats.pullable_workspaces ∧
  s'.stats.unpullable_workspaces = s.stats.unpullable_workspaces

/-- `sameWsCounters` is reflexive. -/
theorem sameWsCounters_refl (s : RunState) : sameWsCounters s s := ⟨rfl, rfl, rfl⟩

/-- `sameWsCounters` composes. -/
theorem sameWsCounters_trans {s₁ s₂ s₃ : RunState}
    (h₁ : sameWsCounters s₁ s₂) (h₂ : sameWsCounters s₂ s₃) : sameWsCounters s₁ s₃ :=
  ⟨h₂.1.trans h₁.1, h₂.2.1.trans h₁.2.1, h₂.2.2.trans h₁.2.2⟩

/-- The final state carried by a loop result. -/
def LoopRes.state : LoopRes → RunState
  | .bad s => s
  | .ok _ _ s => s

/-- The Reachability Checker touches only the cache-hit and timeout counters
and the cache: the truncation, pullable-workspace, unpullable-workspace and
blocked counters are untouched. -/
theorem skopeo_inspect_preserves (inspect : Inspector) (image : String)
    (reg : Option String) (s : RunState) :
    sameWsCounters s ((skopeo_inspect inspect image reg s).2.1) ∧
    ((skopeo_inspect inspect image reg s).2.1).stats.blocked_registry_images =
      s.stats.blocked_registry_images := by
  unfold skopeo_inspect
  cases hhit : pyGet s.inspected (cacheKeyOf image reg) with
  | some v => simp [hhit, bumpCachedHits, sameWsCounters]
  | none =>
    cases h₁ : inspect (dockerCmd image) 45 with
    | success => simp [hhit, h₁, cacheStore, sameWsCounters]
    | timeout => simp [hhit, h₁, cacheStore, bumpTimeouts, sameWsCounters]
    | failure =>
      cases reg with
      | none => simp [hhit, h₁, cacheStore, sameWsCounters]
      | some r =>
        by_cases hr : r = ""
        · subst hr; simp [hhit, h₁, cacheStore, sameWsCounters]
        · cases h₂ : inspect (dockerCmd (r ++ "/" ++ image)) 45 with
          | success => simp [hhit, h₁, hr, h₂, cacheStore, sameWsCounters]
          | failure => simp [hhit, h₁, hr, h₂, cacheStore, sameWsCounters]
          | timeout => simp [hhit, h₁, hr, h₂, cacheStore, bumpTimeouts, sameWsCounters]

/-- The entry loop leaves the truncation, pullable-workspace and
unpullable-workspace counters untouched, whatever it returns. -/
theorem pullLoop_preserves (inspect : Inspector) (reg : Option String) :
    ∀ (l : List JValue) (s : RunState) (res : LoopRes),
      pullLoop inspect reg l s = some res → sameWsCounters s res.state := by
  intro l
  induction l with
  | nil =>
    intro s res h
    cases h
    exact sameWsCounters_refl s
  | cons entry rest ih =>
    intro s res h
    cases entry with
    | obj eo =>
      simp only [pullLoop] at h
      cases hiv : pyGet eo "image" with
      | none =>
        rw [hiv] at h
        exact ih s res h
      | some iv =>
        rw [hiv] at h
        simp only at h
        by_cases htr : iv.truthy
        · rw [if_pos htr] at h
          cases iv with
          | str image =>
            simp only at h
            by_cases hskip : should_skip_image image reg
            · rw [if_pos hskip] at h
              have hb : sameWsCounters s (bumpBlocked s) := ⟨rfl, rfl, rfl⟩
              exact sameWsCounters_trans hb (ih _ res h)
            · rw [if_neg hskip] at h
              have hsk := (skopeo_inspect_preserves inspect image reg s).1
              cases hres : (skopeo_inspect inspect image reg s).1 with
              | true =>
                rw [hres] at h
                simp only [if_pos] at h
                cases hrec : pullLoop inspect reg rest (skopeo_inspect inspect image reg s).2.1 with
                | none => rw [hrec] at h; exact absurd h (by simp)
                | some res' =>
                  rw [hrec] at h
                  have hr := ih _ res' hrec
                  cases res' with
                  | bad s' =>
                    simp only at h
                    cases h
                    exact sameWsCounters_trans hsk hr
                  | ok p c s' =>
                    simp only at h
                    cases h
                    exact sameWsCounters_trans hsk hr
              | false =>
                rw [hres] at h
                simp only [Bool.false_eq_true, if_neg] at h
                cases hrec : pullLoop inspect reg rest (skopeo_inspect inspect image reg s).2.1 with
                | none => rw [hrec] at h; exact absurd h (by simp)
                | some res' =>
                  rw [hrec] at h
                  have hr := ih _ res' hrec
                  cases res' with
                  | bad s' =>
                    simp only at h
                    cases h
                    exact sameWsCounters_trans hsk hr
                  | ok p c s' =>
                    simp only at h
                    cases h
                    exact sameWsCounters_trans hsk hr
          | null => exact absurd h (by simp)
          | bool b => exact absurd h (by simp)
          | num n => exact absurd h (by simp)
          | arr a => exact absurd h (by simp)
          | obj o => exact absurd h (by simp)
        · rw [if_neg htr] at h
          exact ih s res h
    | null => cases h; exact sameWsCounters_refl s
    | bool b => cases h; exact sameWsCounters_refl s
    | num n => cases h; exact sameWsCounters_refl s
    | str ss => cases h; exact sameWsCounters_refl s
    | arr a => cases h; exact sameWsCounters_refl s

/-- Add `n` to the blocked-registry-image counter. -/
def addBlocked (s : RunState) (n : Nat) : RunState :=
  { s with stats := { s.stats with blocked_registry_images := s.stats.blocked_registry_images + n } }

/-- An entry the Block-List Filter rejects: a dict with a truthy string image
matching the filter. -/
def blockedEntry (reg : Option String) (e : JValue) : Prop :=
  ∃ eo image, e = JValue.obj eo ∧ pyGet eo "image" = some (.str image) ∧
    image ≠ "" ∧ should_skip_image image reg = true

/-- On a list of all-blocked entries the loop keeps nothing, counts no
reachability failure, consults no inspector, and bumps the blocked counter
once per entry. -/
theorem pullLoop_all_blocked (inspect : Inspector) (reg : Option String) :
    ∀ (l : List JValue) (s : RunState), (∀ e ∈ l, blockedEntry reg e) →
      pullLoop inspect reg l s = some (.ok [] 0 (addBlocked s l.length)) := by
  intro l
  induction l with
  | nil =>
    intro s _
    rfl
  | cons entry rest ih =>
    intro s hall
    obtain ⟨eo, image, he, hiv, him, hskip⟩ := hall entry (List.mem_cons_self entry rest)
    subst he
    have htr : (JValue.str image).truthy = true := by simp [JValue.truthy, him]
    simp only [pullLoop, hiv, htr, if_pos, hskip, if_true]
    rw [ih (bumpBlocked s) (fun e he => hall e (List.mem_cons_of_mem _ he))]
    congr 2
    simp [addBlocked, bumpBlocked, List.length_cons]
    omega

/-- Every cached verdict is a success. -/
def cacheAllTrue (s : RunState) : Prop :=
  ∀ k b, pyGet s.inspected k = some b → b = true

/-- Storing a success verdict keeps the cache all-success. -/
theorem cacheAllTrue_store (s : RunState) (key : String) (h : cacheAllTrue s) :
    cacheAllTrue (cacheStore s key true) := by
  intro k b hk
  by_cases hkk : k = key
  · subst hkk
    rw [cacheStore] at hk
    simp only at hk
    rw [pyGet_pySet_self] at hk
    exact (Option.some.inj hk).symm
  · rw [cacheStore] at hk
    simp only at hk
    rw [pyGet_pySet_ne _ _ _ _ hkk] at hk
    exact h k b hk

/-- Under an always-successful inspector and an all-success cache, the
Reachability Checker answers true and keeps the cache all-success. -/
theorem skopeo_inspect_success (inspect : Inspector)
    (hins : ∀ c n, inspect c n = .success) (image : String) (reg : Option String)
    (s : RunState) (hc : cacheAllTrue s) :
    (skopeo_inspect inspect image reg s).1 = true ∧
    cacheAllTrue (skopeo_inspect inspect image reg s).2.1 := by
  unfold skopeo_inspect
  cases hhit : pyGet s.inspected (cacheKeyOf image reg) with
  | some v =>
    have := hc _ _ hhit
    subst this
    refine ⟨by simp [hhit], ?_⟩
    intro k b hk
    simp only [hhit, bumpCachedHits] at hk
    exact hc k b hk
  | none =>
    simp only [hhit, hins]
    exact ⟨by simp, cacheAllTrue_store s _ hc⟩

/-- Under an always-successful inspector and an all-success cache, the loop
counts zero reachability failures and keeps the cache all-success. -/
theorem pullLoop_zero_failures (inspect : Inspector)
    (hins : ∀ c n, inspect c n = .success) (reg : Option String) :
    ∀ (l : List JValue) (s : RunState), cacheAllTrue s →
      ∀ res, pullLoop inspect reg l s = some res →
        (∀ p c s', res = .ok p c s' → c = 0) := by
  intro l
  induction l with
  | nil =>
    intro s _ res h p c s' hres
    cases h
    cases hres
    rfl
  | cons entry rest ih =>
    intro s hc res h p c s' hres
    cases entry with
    | obj eo =>
      simp only [pullLoop] at h
      cases hiv : pyGet eo "image" with
      | none =>
        rw [hiv] at h
        exact ih s hc res h p c s' hres
      | some iv =>
        rw [hiv] at h
        simp only at h
        by_cases htr : iv.truthy
        · rw [if_pos htr] at h
          cases iv with
          | str image =>
            simp only at h
            by_cases hskip : should_skip_image image reg
            · rw [if_pos hskip] at h
              exact ih (bumpBlocked s) hc res h p c s' hres
            · rw [if_neg hskip] at h
              obtain ⟨hres₁, hcache₁⟩ := skopeo_inspect_success inspect hins image reg s hc
              rw [hres₁] at h
              simp only [if_pos] at h
              cases hrec : pullLoop inspect reg rest (skopeo_inspect inspect image reg s).2.1 with
              | none => rw [hrec] at h; exact absurd h (by simp)
              | some res' =>
                rw [hrec] at h
                cases res' with
                | bad sb =>
                  simp only at h
                  cases h
                  cases hres
                | ok p₁ c₁ s₁ =>
                  simp only at h
                  cases h
                  cases hres
                  exact ih _ hcache₁ _ hrec p₁ c s' rfl
          | null => exact absurd h (by simp)
          | bool b => exact absurd h (by simp)
          | num n => exact absurd h (by simp)
          | arr a => exact absurd h (by simp)
          | obj o => exact absurd h (by simp)
        · rw [if_neg htr] at h
          exact ih s hc res h p c s' hres
    | null => cases h; cases hres
    | bool b => cases h; cases hres
    | num n => cases h; cases hres
    | str ss => cases h; cases hres
    | arr a => cases h; cases hres

/-- C5: a manifest all of whose compatibility entries carry block-listed
images is rejected; the unpullable-workspace counter is untouched while the
blocked counter is bumped once per considered entry; and in general the
unpullable counter moves only when some entry could fail the reachability
check: with an all-success inspector and cache, no manifest ever moves it. -/
theorem c5_all_blocked_rejection (inspect : Inspector) (ws : Obj) (s : RunState)
    (reg : Option String) (l : List JValue)
    (hreg : extractRegistry (pyGet ws "docker_registry") = some reg)
    (hcompat : pyGet ws "compatibility" = some (.arr l))
    (hall : ∀ e ∈ l, blockedEntry reg e) :
    (∃ s', check_image_pullability inspect ws s = some (none, s') ∧
        s'.stats.unpullable_workspaces = s.stats.unpullable_workspaces ∧
        s'.stats.blocked_registry_images =
          s.stats.blocked_registry_images + min l.length MAX_COMPATIBILITY_ENTRIES) ∧
    (∀ (ws₂ : Obj) (s₂ : RunState) (r₂ : Option Obj) (s₂' : RunState),
        (∀ c n, inspect c n = .success) → cacheAllTrue s₂ →
        check_image_pullability inspect ws₂ s₂ = some (r₂, s₂') →
        s₂'.stats.unpullable_workspaces = s₂.stats.unpullable_workspaces) := by
  constructor
  · simp only [check_image_pullability, hreg, hcompat, Option.getD_some]
    by_cases hlen : l.length > MAX_COMPATIBILITY_ENTRIES
    · rw [if_pos hlen, if_pos hlen]
      rw [pullLoop_all_blocked inspect reg (l.take MAX_COMPATIBILITY_ENTRIES)
            (bumpTruncated s) (fun e he => hall e (List.take_subset _ _ he))]
      refine ⟨addBlocked (bumpTruncated s) (l.take MAX_COMPATIBILITY_ENTRIES).length,
              ?_, ?_, ?_⟩
      · simp
      · simp [addBlocked, bumpTruncated]
      · simp only [addBlocked, bumpTruncated, List.length_take]
        simp only [MAX_COMPATIBILITY_ENTRIES] at hlen ⊢
        omega
    · rw [if_neg hlen, if_neg hlen]
      rw [pullLoop_all_blocked inspect reg l s hall]
      refine ⟨addBlocked s l.length, ?_, ?_, ?_⟩
      · simp
      · simp [addBlocked]
      · simp only [addBlocked]
        simp only [MAX_COMPATIBILITY_ENTRIES] at hlen ⊢
        omega
  · intro ws₂ s₂ r₂ s₂' hins hcache h
    simp only [check_image_pullability] at h
    cases hreg₂ : extractRegistry (pyGet ws₂ "docker_registry") with
    | none => rw [hreg₂] at h; exact absurd h (by simp)
    | some reg₂ =>
      rw [hreg₂] at h
      cases hcv : (pyGet ws₂ "compatibility").getD (.arr []) with
      | arr l₂ =>
        rw [hcv] at h
        simp only at h
        by_cases hl : l₂.length > MAX_COMPATIBILITY_ENTRIES
        · rw [if_pos hl, if_pos hl] at h
          have hcache₁ : cacheAllTrue (bumpTruncated s₂) := hcache
          cases hloop : pullLoop inspect reg₂ (l₂.take MAX_COMPATIBILITY_ENTRIES)
              (bumpTruncated s₂) with
          | none => rw [hloop] at h; exact absurd h (by simp)
          | some res =>
            rw [hloop] at h
            have hpres := pullLoop_preserves inspect reg₂ _ _ res hloop
            cases res with
            | bad sb =>
              simp only at h
              injection h with h'
              injection h' with h₁ h₂
              subst h₂
              exact hpres.2.2
            | ok p c s' =>
              simp only at h
              by_cases hp : p.isEmpty
              · have hc0 := pullLoop_zero_failures inspect hins reg₂ _ _ hcache₁ _ hloop p c s' rfl
                subst hc0
                simp only [hp, Bool.not_true, Bool.false_eq_true, if_false,
                           Nat.lt_irrefl, gt_iff_lt] at h
                injection h with h'
                injection h' with h₁ h₂
                subst h₂
                exact hpres.2.2
              · simp only [Bool.not_eq_true] at hp
                simp only [hp, Bool.not_false, if_true] at h
                injection h with h'
                injection h' with h₁ h₂
                subst h₂
                exact hpres.2.2
        · rw [if_neg hl, if_neg hl] at h
          cases hloop : pullLoop inspect reg₂ l₂ s₂ with
          | none => rw [hloop] at h; exact absurd h (by simp)
          | some res =>
            rw [hloop] at h
            have hpres := pullLoop_preserves inspect reg₂ _ _ res hloop
            cases res with
            | bad sb =>
              simp only at h
              injection h with h'
              injection h' with h₁ h₂
              subst h₂
              exact hpres.2.2
            | ok p c s' =>
              simp only at h
              by_cases hp : p.isEmpty
              · have hc0 := pullLoop_zero_failures inspect hins reg₂ _ _ hcache _ hloop p c s' rfl
                subst hc0
                simp only [hp, Bool.not_true, Bool.false_eq_true, if_false,
                           Nat.lt_irrefl, gt_iff_lt] at h
                injection h with h'
                injection h' with h₁ h₂
                subst h₂
                exact hpres.2.2
              · simp only [Bool.not_eq_true] at hp
                simp only [hp, Bool.not_false, if_true] at h
                injection h with h'
                injection h' with h₁ h₂
                subst h₂
                exact hpres.2.2
      | null => rw [hcv] at h; simp only at h; injection h with h'; injection h' with h₁ h₂; subst h₂; rfl
      | bool b => rw [hcv] at h; simp only at h; injection h with h'; injection h' with h₁ h₂; subst h₂; rfl
      | num n => rw [hcv] at h; simp only at h; injection h with h'; injection h' with h₁ h₂; subst h₂; rfl
      | str ss => rw [hcv] at h; simp only at h; injection h with h'; injection h' with h₁ h₂; subst h₂; rfl
      | obj oo => rw [hcv] at h; simp only at h; injection h with h'; injection h' with h₁ h₂; subst h₂; rfl

/-- C5 witness: a manifest with two block-listed entries and no registry is
rejected with the unpullable counter untouched and the blocked counter
bumped twice. -/
theorem c5_all_blocked_rejection_witness :
    ∃ s', check_image_pullability inspectorAllSuccess
        [("compatibility", .arr [.obj [("image", .str "kasmweb/a")],
                                 .obj [("image", .str "kasmweb/b")]])]
        initialRunState = some (none, s') ∧
      s'.stats.unpullable_workspaces = initialRunState.stats.unpullable_workspaces ∧
      s'.stats.blocked_registry_images =
        initialRunState.stats.blocked_registry_images +
          min ([JValue.obj [("image", .str "kasmweb/a")],
                JValue.obj [("image", .str "kasmweb/b")]]).length
            MAX_COMPATIBILITY_ENTRIES :=
  (c5_all_blocked_rejection inspectorAllSuccess
    [("compatibility", .arr [.obj [("image", .str "kasmweb/a")],
                             .obj [("image", .str "kasmweb/b")]])]
    initialRunState none
    [.obj [("image", .str "kasmweb/a")], .obj [("image", .str "kasmweb/b")]]
    rfl rfl
    (by
      intro e he
      simp only [List.mem_cons, List.not_mem_nil, or_false] at he
      rcases he with rfl | rfl
      · exact ⟨[("image", .str "kasmweb/a")], "kasmweb/a", rfl, rfl, by decide, by decide⟩
      · exact ⟨[("image", .str "kasmweb/b")], "kasmweb/b", rfl, rfl, by decide, by decide⟩)).1

/-- C6: a manifest with more than ten compatibility entries behaves exactly
like the same manifest truncated to its first ten entries run against a
state whose truncation counter was bumped once — the oversized list is never
a reason for rejection — and in every non-crashing run the truncation
counter moves by exactly one when the list is oversized and by zero
otherwise. -/
theorem c6_truncation (inspect : Inspector) (ws : Obj) (s : RunState) (l : List JValue)
    (hcompat : pyGet ws "compatibility" = some (.arr l)) :
    (l.length > MAX_COMPATIBILITY_ENTRIES →
        check_image_pullability inspect ws s =
          check_image_pullability inspect
            (pySet ws "compatibility" (.arr (l.take MAX_COMPATIBILITY_ENTRIES)))
            (bumpTruncated s)) ∧
    (∀ r s', check_image_pullability inspect ws s = some (r, s') →
        s'.stats.truncated_compatibility_workspaces =
          s.stats.truncated_compatibility_workspaces +
            (if MAX_COMPATIBILITY_ENTRIES < l.length then 1 else 0)) := by
  constructor
  · intro hlen
    have hregeq : pyGet (pySet ws "compatibility" (.arr (l.take MAX_COMPATIBILITY_ENTRIES)))
        "docker_registry" = pyGet ws "docker_registry" :=
      pyGet_pySet_ne ws "compatibility" "docker_registry" _ (by decide)
    simp only [check_image_pullability, hcompat, hregeq, pyGet_pySet_self, Option.getD_some]
    cases extractRegistry (pyGet ws "docker_registry") with
    | none => rfl
    | some reg =>
      simp only
      have hlen2 : ¬ ((l.take MAX_COMPATIBILITY_ENTRIES).length > MAX_COMPATIBILITY_ENTRIES) := by
        simp [List.length_take]
      rw [if_pos hlen, if_pos hlen, if_neg hlen2, if_neg hlen2]
      cases hloop : pullLoop inspect reg (l.take MAX_COMPATIBILITY_ENTRIES) (bumpTruncated s) with
      | none => rfl
      | some res =>
        cases res with
        | bad sb => rfl
        | ok p c s' =>
          by_cases hp : p.isEmpty
          · simp [hp]
          · simp only [Bool.not_eq_true] at hp
            simp [hp, pySet_pySet_self]
  · intro r s' h
    simp only [check_image_pullability, hcompat, Option.getD_some] at h
    cases hreg : extractRegistry (pyGet ws "docker_registry") with
    | none => rw [hreg] at h; exact absurd h (by simp)
    | some reg =>
      rw [hreg] at h
      simp only at h
      by_cases hlen : l.length > MAX_COMPATIBILITY_ENTRIES
      · rw [if_pos hlen, if_pos hlen] at h
        rw [if_pos hlen]
        cases hloop : pullLoop inspect reg (l.take MAX_COMPATIBILITY_ENTRIES)
            (bumpTruncated s) with
        | none => rw [hloop] at h; exact absurd h (by simp)
        | some res =>
          rw [hloop] at h
          have hpres := pullLoop_preserves inspect reg _ _ res hloop
          cases res with
          | bad sb =>
            simp only at h
            injection h with h'
            injection h' with h₁ h₂
            subst h₂
            exact hpres.1
          | ok p c s₁ =>
            simp only at h
            by_cases hp : p.isEmpty
            · rw [hp] at h
              simp only [Bool.not_true, Bool.false_eq_true, if_false] at h
              by_cases hc : c > 0
              · rw [if_pos hc] at h
                injection h with h'
                injection h' with h₁ h₂
                subst h₂
                exact hpres.1
              · rw [if_neg hc] at h
                injection h with h'
                injection h' with h₁ h₂
                subst h₂
                exact hpres.1
            · simp only [Bool.not_eq_true] at hp
              simp only [hp, Bool.not_false, if_true] at h
              injection h with h'
              injection h' with h₁ h₂
              subst h₂
              exact hpres.1
      · rw [if_neg hlen, if_neg hlen] at h
        rw [if_neg hlen]
        cases hloop : pullLoop inspect reg l s with
        | none => rw [hloop] at h; exact absurd h (by simp)
        | some res =>
          rw [hloop] at h
          have hpres := pullLoop_preserves inspect reg _ _ res hloop
          cases res with
          | bad sb =>
            simp only at h
            injection h with h'
            injection h' with h₁ h₂
            subst h₂
            simpa using hpres.1
          | ok p c s₁ =>
            simp only at h
            by_cases hp : p.isEmpty
            · rw [hp] at h
              simp only [Bool.not_true, Bool.false_eq_true, if_false] at h
              by_cases hc : c > 0
              · rw [if_pos hc] at h
                injection h with h'
                injection h' with h₁ h₂
                subst h₂
                simpa using hpres.1
              · rw [if_neg hc] at h
                injection h with h'
                injection h' with h₁ h₂
                subst h₂
                simpa using hpres.1
            · simp only [Bool.not_eq_true] at hp
              simp only [hp, Bool.not_false, if_true] at h
              injection h with h'
              injection h' with h₁ h₂
              subst h₂
              simpa using hpres.1

/-- C6 witness: an eleven-entry manifest equals its ten-entry truncation run
against a once-bumped truncation counter. -/
theorem c6_truncation_witness :
    check_image_pullability inspectorAllSuccess
        [("compatibility", .arr (List.replicate 11 (.obj [("image", .str "kasmweb/a")])))]
        initialRunState =
      check_image_pullability inspectorAllSuccess
        (pySet [("compatibility",
                 .arr (List.replicate 11 (.obj [("image", .str "kasmweb/a")])))]
          "compatibility"
          (.arr ((List.replicate 11
                   (JValue.obj [("image", .str "kasmweb/a")])).take MAX_COMPATIBILITY_ENTRIES)))
        (bumpTruncated initialRunState) :=
  (c6_truncation inspectorAllSuccess
    [("compatibility", .arr (List.replicate 11 (.obj [("image", .str "kasmweb/a")])))]
    initialRunState (List.replicate 11 (.obj [("image", .str "kasmweb/a")]))
    rfl).1 (by decide)

/-- The set comprehensions succeed on a list of dict entries. -/
theorem collectTruthyField_isSome (key : String) :
    ∀ (pl : List JValue), (∀ e ∈ pl, ∃ o, e = JValue.obj o) →
      ∃ vs, collectTruthyField key pl = some vs := by
  intro pl
  induction pl with
  | nil => exact fun _ => ⟨[], rfl⟩
  | cons e rest ih =>
    intro h
    obtain ⟨o, rfl⟩ := h e (List.mem_cons_self e rest)
    obtain ⟨vs, hvs⟩ := ih (fun e' he' => h e' (List.mem_cons_of_mem _ he'))
    simp only [collectTruthyField, hvs]
    cases hv : pyGet o key with
    | none => exact ⟨vs, rfl⟩
    | some v =>
      by_cases htr : v.truthy
      · exact ⟨v :: vs, by simp [htr]⟩
      · exact ⟨vs, by simp [htr]⟩

/-- Everything the set comprehension collects is truthy (falsy values are
filtered by the comprehension's guard). -/
theorem collectTruthyField_truthy (key : String) :
    ∀ (pl : List JValue) (vs : List JValue), collectTruthyField key pl = some vs →
      ∀ v ∈ vs, v.truthy = true := by
  intro pl
  induction pl with
  | nil =>
    intro vs h v hv
    cases h
    exact absurd hv (by simp)
  | cons e rest ih =>
    intro vs h v hv
    cases e with
    | obj o =>
      simp only [collectTruthyField] at h
      cases hrec : collectTruthyField key rest with
      | none => rw [hrec] at h; exact absurd h (by simp)
      | some vs' =>
        rw [hrec] at h
        simp only at h
        cases hk : pyGet o key with
        | none =>
          rw [hk] at h
          cases h
          exact ih _ hrec v hv
        | some w =>
          rw [hk] at h
          simp only at h
          by_cases htr : w.truthy
          · rw [if_pos htr] at h
            cases h
            rcases List.mem_cons.mp hv with rfl | hv'
            · exact htr
            · exact ih vs' hrec v hv'
          · rw [if_neg htr] at h
            cases h
            exact ih _ hrec v hv
    | null => exact absurd h (by simp [collectTruthyField])
    | bool b => exact absurd h (by simp [collectTruthyField])
    | num n => exact absurd h (by simp [collectTruthyField])
    | str ss => exact absurd h (by simp [collectTruthyField])
    | arr a => exact absurd h (by simp [collectTruthyField])

/-- The Python `None` produced by a missing image binding is never a member
of a set of truthy values. -/
theorem memJ_null_of_truthy :
    ∀ (imgs : List JValue), (∀ v ∈ imgs, v.truthy = true) →
      memJ JValue.null imgs = false := by
  intro imgs
  induction imgs with
  | nil => intro _; rfl
  | cons w ws ih =>
    intro h
    have hw := h w (List.mem_cons_self w ws)
    have hbeq : JValue.beq JValue.null w = false := by
      cases w with
      | null => exact absurd hw (by simp [JValue.truthy])
      | bool b => rfl
      | num n => rfl
      | str ss => rfl
      | arr a => rfl
      | obj o => rfl
    simp only [memJ, hbeq, Bool.false_or]
    exact ih (fun v hv => h v (List.mem_cons_of_mem _ hv))

/-- Claim-side characterization of the Variant-A projection: an original
entry survives exactly when its image value is a member of the
surviving-images set (an entry that is not a dict, or has no image binding,
never survives). -/
def specKeepsEntry (surviving : List JValue) : JValue → Bool
  | .obj o =>
    match pyGet o "image" with
    | some v => memJ v surviving
    | none => false
  | _ => false

/-- On all-dict entries the Variant-A comprehension succeeds and keeps
exactly the entries `specKeepsEntry` describes. -/
theorem filterByImageMem_eq_filter (imgs : List JValue)
    (himgs : ∀ v ∈ imgs, v.truthy = true) :
    ∀ (cl : List JValue), (∀ e ∈ cl, ∃ o, e = JValue.obj o) →
      filterByImageMem imgs cl = some (cl.filter (specKeepsEntry imgs)) := by
  intro cl
  induction cl with
  | nil => intro _; rfl
  | cons e rest ih =>
    intro h
    obtain ⟨o, rfl⟩ := h e (List.mem_cons_self e rest)
    have hrec := ih (fun e' he' => h e' (List.mem_cons_of_mem _ he'))
    simp only [filterByImageMem, hrec, List.filter_cons]
    cases hk : pyGet o "image" with
    | none =>
      simp only [Option.getD_none, memJ_null_of_truthy imgs himgs,
                 specKeepsEntry, hk, Bool.false_eq_true, if_false]
    | some v =>
      simp only [Option.getD_some, specKeepsEntry, hk]
      by_cases hm : memJ v imgs
      · simp [hm]
      · simp only [Bool.not_eq_true] at hm
        simp [hm]

/-- C1: on a Variant-A original (object-array compatibility) and a filtered
canonical manifest of dict entries, the projector keeps exactly the original
entries whose image is in the surviving-images set, returns the Python
`None` when that filtered array is empty, and leaves every other original
field unchanged. -/
theorem c1_projector_round_trip (orig pw : Obj) (pl : List JValue)
    (c0 : JValue) (cs : List JValue) (imgs : List JValue)
    (hpc : pyGet pw "compatibility" = some (.arr pl))
    (hpl : pl ≠ [])
    (hplobj : ∀ e ∈ pl, ∃ o, e = JValue.obj o)
    (himgs : collectTruthyField "image" pl = some imgs)
    (hoc : pyGet orig "compatibility" = some (.arr (c0 :: cs)))
    (horigobj : ∀ e ∈ c0 :: cs, ∃ o, e = JValue.obj o) :
    (filter_original_workspace_json orig (some pw) =
        some (if ((c0 :: cs).filter (specKeepsEntry imgs)).isEmpty then none
              else some (pySet orig "compatibility"
                          (.arr ((c0 :: cs).filter (specKeepsEntry imgs)))))) ∧
    (∀ k, k ≠ "compatibility" →
        pyGet (pySet orig "compatibility"
                (.arr ((c0 :: cs).filter (specKeepsEntry imgs)))) k = pyGet orig k) := by
  refine ⟨?_, fun k hk => pyGet_pySet_ne orig "compatibility" k _ hk⟩
  have htrthy : (JValue.arr pl).truthy = true := by
    cases pl with
    | nil => exact absurd rfl hpl
    | cons p ps => rfl
  obtain ⟨vers, hvers⟩ := collectTruthyField_isSome "version" pl hplobj
  have himtr := collectTruthyField_truthy "image" pl imgs himgs
  have hfilter := filterByImageMem_eq_filter imgs himtr (c0 :: cs) horigobj
  obtain ⟨o0, rfl⟩ := horigobj c0 (List.mem_cons_self c0 cs)
  simp only [filter_original_workspace_json, hpc, Option.getD_some, htrthy, if_true,
             himgs, hvers, hoc, hfilter]
  have htr2 : (JValue.arr (JValue.obj o0 :: cs)).truthy = true := rfl
  simp only [htr2, if_true]
  by_cases hk : ((JValue.obj o0 :: cs).filter (specKeepsEntry imgs)).isEmpty
  · simp [hk]
  · simp only [Bool.not_eq_true] at hk
    simp [hk]

/-- C1 witness: the round-trip example of the claim — original compatibility
entries for images "a" and "b", only "a" surviving: the projected output
keeps exactly the "a" entry and the friendly_name binding is untouched. -/
theorem c1_projector_round_trip_witness :
    (filter_original_workspace_json
        [("friendly_name", JValue.str "F"),
         ("compatibility", JValue.arr
           [JValue.obj [("image", JValue.str "a"), ("version", JValue.str "1")],
            JValue.obj [("image", JValue.str "b"), ("version", JValue.str "2")]])]
        (some [("compatibility", JValue.arr
           [JValue.obj [("image", JValue.str "a"), ("version", JValue.str "1")]])]) =
      some (if (([JValue.obj [("image", JValue.str "a"), ("version", JValue.str "1")],
                  JValue.obj [("image", JValue.str "b"), ("version", JValue.str "2")]]).filter
                  (specKeepsEntry [JValue.str "a"])).isEmpty then none
            else some (pySet
              [("friendly_name", JValue.str "F"),
               ("compatibility", JValue.arr
                 [JValue.obj [("image", JValue.str "a"), ("version", JValue.str "1")],
                  JValue.obj [("image", JValue.str "b"), ("version", JValue.str "2")]])]
              "compatibility"
              (JValue.arr (([JValue.obj [("image", JValue.str "a"), ("version", JValue.str "1")],
                             JValue.obj [("image", JValue.str "b"), ("version", JValue.str "2")]]).filter
                             (specKeepsEntry [JValue.str "a"])))))) ∧
    (∀ k, k ≠ "compatibility" →
        pyGet (pySet
          [("friendly_name", JValue.str "F"),
           ("compatibility", JValue.arr
             [JValue.obj [("image", JValue.str "a"), ("version", JValue.str "1")],
              JValue.obj [("image", JValue.str "b"), ("version", JValue.str "2")]])]
          "compatibility"
          (JValue.arr (([JValue.obj [("image", JValue.str "a"), ("version", JValue.str "1")],
                         JValue.obj [("image", JValue.str "b"), ("version", JValue.str "2")]]).filter
                         (specKeepsEntry [JValue.str "a"])))) k =
        pyGet [("friendly_name", JValue.str "F"),
               ("compatibility", JValue.arr
                 [JValue.obj [("image", JValue.str "a"), ("version", JValue.str "1")],
                  JValue.obj [("image", JValue.str "b"), ("version", JValue.str "2")]])] k) :=
  c1_projector_round_trip
    [("friendly_name", JValue.str "F"),
     ("compatibility", JValue.arr
       [JValue.obj [("image", JValue.str "a"), ("version", JValue.str "1")],
        JValue.obj [("image", JValue.str "b"), ("version", JValue.str "2")]])]
    [("compatibility", JValue.arr
       [JValue.obj [("image", JValue.str "a"), ("version", JValue.str "1")]])]
    [JValue.obj [("image", JValue.str "a"), ("version", JValue.str "1")]]
    (JValue.obj [("image", JValue.str "a"), ("version", JValue.str "1")])
    [JValue.obj [("image", JValue.str "b"), ("version", JValue.str "2")]]
    [JValue.str "a"]
    rfl (by simp) (by
      intro e he
      simp only [List.mem_singleton] at he
      subst he
      exact ⟨_, rfl⟩)
    rfl rfl (by
      intro e he
      simp only [List.mem_cons, List.not_mem_nil, or_false] at he
      rcases he with rfl | rfl
      · exact ⟨_, rfl⟩
      · exact ⟨_, rfl⟩)

/-- A store into the freshly allocated copy cell (at the old heap length)
after two allocations never disturbs a pre-existing cell. -/
theorem heap_frame_store (h : Heap) (c₁ c₂ newc : Cell) (i : Nat) (hi : i < h.length) :
    (((h ++ [c₁]) ++ [c₂]).set h.length newc).get? i = h.get? i := by
  have hi₁ : i < (h ++ [c₁]).length := by
    simp only [List.length_append, List.length_cons, List.length_nil]
    omega
  rw [List.get?_set_ne newc _ (Nat.ne_of_gt hi), List.get?_append hi₁, List.get?_append hi]

/-- A single allocation never disturbs a pre-existing cell. -/
theorem heap_frame_alloc (h : Heap) (c₁ : Cell) (i : Nat) (hi : i < h.length) :
    (h ++ [c₁]).get? i = h.get? i := List.get?_append hi

/-- The projector's final store writes only the fresh copy cell. -/
theorem heapProjectStore_frame (h : Heap) (ob : List (String × PyVal))
    (fc : List PyVal) (i : Nat) (hi : i < h.length) :
    ((heapProjectStore (h ++ [Cell.dictC ob]) h.length ob fc).2).get? i = h.get? i := by
  simp only [heapProjectStore]
  exact heap_frame_store h (Cell.dictC ob) (Cell.listC fc) _ i hi

/-- The tail of the heap-model Pullability Filter writes only the fresh copy
cell: every pre-existing cell is unchanged. -/
theorem heapCheckWithList_frame (inspect : Inspector) (h : Heap)
    (b : List (String × PyVal)) (reg : Option String) (l : List PyVal) (s : RunState)
    (r : Option PyVal) (s' : RunState) (h' : Heap)
    (hres : heapCheckWithList inspect (h ++ [Cell.dictC b]) h.length b reg l s =
      some (r, s', h')) :
    ∀ i, i < h.length → h'.get? i = h.get? i := by
  intro i hi
  simp only [heapCheckWithList] at hres
  cases hloop : heapPullLoop inspect (h ++ [Cell.dictC b]) reg
      (if l.length > MAX_COMPATIBILITY_ENTRIES then l.take MAX_COMPATIBILITY_ENTRIES else l)
      (if l.length > MAX_COMPATIBILITY_ENTRIES then bumpTruncated s else s) with
  | none => rw [hloop] at hres; exact absurd hres (by simp)
  | some res =>
    rw [hloop] at hres
    cases res with
    | bad sb =>
      simp only at hres
      injection hres with h₁
      injection h₁ with h₂ h₃
      injection h₃ with h₄ h₅
      subst h₅
      exact heap_frame_alloc h (Cell.dictC b) i hi
    | ok p c sb =>
      simp only at hres
      by_cases hp : p.isEmpty
      · rw [hp] at hres
        simp only [Bool.not_true, Bool.false_eq_true, if_false] at hres
        by_cases hc : c > 0
        · rw [if_pos hc] at hres
          injection hres with h₁
          injection h₁ with h₂ h₃
          injection h₃ with h₄ h₅
          subst h₅
          exact heap_frame_alloc h (Cell.dictC b) i hi
        · rw [if_neg hc] at hres
          injection hres with h₁
          injection h₁ with h₂ h₃
          injection h₃ with h₄ h₅
          subst h₅
          exact heap_frame_alloc h (Cell.dictC b) i hi
      · simp only [Bool.not_eq_true] at hp
        simp only [hp, Bool.not_false, if_true] at hres
        injection hres with h₁
        injection h₁ with h₂ h₃
        injection h₃ with h₄ h₅
        subst h₅
        exact heap_frame_store h (Cell.dictC b) (Cell.listC p) _ i hi

/-- The heap-model Pullability Filter leaves every pre-existing heap cell
unchanged: its only store targets the fresh copy of the input dict. -/
theorem check_image_pullability_heap_frame (inspect : Inspector) (h : Heap) (d : Nat)
    (s : RunState) (r : Option PyVal) (s' : RunState) (h' : Heap)
    (hres : check_image_pullability_heap inspect h d s = some (r, s', h')) :
    (∀ i, i < h.length → h'.get? i = h.get? i) ∧ h'.get? d = h.get? d := by
  have hmain : ∀ i, i < h.length → h'.get? i = h.get? i := by
    intro i hi
    simp only [check_image_pullability_heap] at hres
    cases hd : h.get? d with
    | none => rw [hd] at hres; exact absurd hres (by simp)
    | some cell =>
      rw [hd] at hres
      cases cell with
      | listC lc => exact absurd hres (by simp)
      | dictC b =>
        simp only at hres
        cases hreg : heapRegistry (h ++ [Cell.dictC b]) b with
        | none => rw [hreg] at hres; exact absurd hres (by simp)
        | some reg =>
          rw [hreg] at hres
          simp only at hres
          cases hcv : pyGet b "compatibility" with
          | none =>
            rw [hcv] at hres
            exact heapCheckWithList_frame inspect h b reg [] s r s' h' hres i hi
          | some pv =>
            rw [hcv] at hres
            cases pv with
            | ref j =>
              simp only at hres
              cases hj : (h ++ [Cell.dictC b]).get? j with
              | none => rw [hj] at hres; exact absurd hres (by simp)
              | some cj =>
                rw [hj] at hres
                cases cj with
                | listC lc =>
                  simp only at hres
                  exact heapCheckWithList_frame inspect h b reg lc s r s' h' hres i hi
                | dictC dc =>
                  simp only at hres
                  injection hres with h₁
                  injection h₁ with h₂ h₃
                  injection h₃ with h₄ h₅
                  subst h₅
                  exact heap_frame_alloc h (Cell.dictC b) i hi
            | vnone =>
              simp only at hres
              injection hres with h₁
              injection h₁ with h₂ h₃
              injection h₃ with h₄ h₅
              subst h₅
              exact heap_frame_alloc h (Cell.dictC b) i hi
            | vbool bb =>
              simp only at hres
              injection hres with h₁
              injection h₁ with h₂ h₃
              injection h₃ with h₄ h₅
              subst h₅
              exact heap_frame_alloc h (Cell.dictC b) i hi
            | vnum nn =>
              simp only at hres
              injection hres with h₁
              injection h₁ with h₂ h₃
              injection h₃ with h₄ h₅
              subst h₅
              exact heap_frame_alloc h (Cell.dictC b) i hi
            | vstr ssv =>
              simp only at hres
              injection hres with h₁
              injection h₁ with h₂ h₃
              injection h₃ with h₄ h₅
              subst h₅
              exact heap_frame_alloc h (Cell.dictC b) i hi
  refine ⟨hmain, ?_⟩
  have hd : ∃ cell, h.get? d = some cell := by
    simp only [check_image_pullability_heap] at hres
    cases hd : h.get? d with
    | none => rw [hd] at hres; exact absurd hres (by simp)
    | some cell => exact ⟨cell, rfl⟩
  obtain ⟨cell, hcell⟩ := hd
  obtain ⟨hlt, _⟩ := List.get?_eq_some.mp hcell
  exact hmain d hlt

/-- The heap-model Original-Shape Projector leaves every pre-existing heap
cell unchanged: its only store targets the fresh copy of the original
dict. -/
theorem filter_original_heap_frame (h : Heap) (dOrig : Nat) (pw : Option Nat)
    (r : Option PyVal) (h' : Heap)
    (hres : filter_original_workspace_json_heap h dOrig pw = some (r, h')) :
    ∀ i, i < h.length → h'.get? i = h.get? i := by
  intro i hi
  simp only [filter_original_workspace_json_heap] at hres
  repeat' split at hres
  all_goals try (exact Option.noConfusion hres)
  all_goals
    have h₂ := congrArg Prod.snd (Option.some.inj hres)
  all_goals dsimp only at h₂
  all_goals subst h₂
  all_goals
    first
      | rfl
      | exact heap_frame_alloc _ _ i hi
      | exact heapProjectStore_frame _ _ _ i hi

/-- C10: neither the Pullability Filter nor the Original-Shape Projector
mutates the caller's document.  In the heap model, whenever either function
returns, every pre-existing heap cell — in particular the input manifest
dict itself and its original compatibility list — holds exactly the value it
held before the call: each function works on a freshly allocated shallow
copy and installs its freshly built list under the compatibility key of that
copy only. -/
theorem c10_no_input_mutation :
    (∀ (inspect : Inspector) (h : Heap) (d : Nat) (s : RunState) (r : Option PyVal)
        (s' : RunState) (h' : Heap),
        check_image_pullability_heap inspect h d s = some (r, s', h') →
        (∀ i, i < h.length → h'.get? i = h.get? i) ∧ h'.get? d = h.get? d) ∧
    (∀ (h : Heap) (dOrig : Nat) (pw : Option Nat) (r : Option PyVal) (h' : Heap),
        filter_original_workspace_json_heap h dOrig pw = some (r, h') →
        (∀ i, i < h.length → h'.get? i = h.get? i) ∧
        h'.get? dOrig = h.get? dOrig) := by
  refine ⟨fun inspect h d s r s' h' hres =>
    check_image_pullability_heap_frame inspect h d s r s' h' hres, ?_⟩
  intro h dOrig pw r h' hres
  have hmain := filter_original_heap_frame h dOrig pw r h' hres
  refine ⟨hmain, ?_⟩
  cases pw with
  | none =>
    simp only [filter_original_workspace_json_heap] at hres
    have h₂ := congrArg Prod.snd (Option.some.inj hres)
    dsimp only at h₂
    subst h₂
    rfl
  | some dp =>
    simp only [filter_original_workspace_json_heap] at hres
    cases hd : h.get? dOrig with
    | none => rw [hd] at hres; exact absurd hres (by simp)
    | some cell =>
      obtain ⟨hlt, _⟩ := List.get?_eq_some.mp hd
      exact (hmain dOrig hlt).trans hd

/-- C10 witness: a three-cell heap (manifest dict, its compatibility list,
one entry dict); after each call every original cell is unchanged. -/
theorem c10_no_input_mutation_witness :
    ((check_image_pullability_heap inspectorAllSuccess
        [Cell.dictC [("compatibility", PyVal.ref 1)],
         Cell.listC [PyVal.ref 2],
         Cell.dictC [("image", PyVal.vstr "img"), ("version", PyVal.vstr "1")]]
        0 initialRunState).elim [] (fun t => t.2.2)).get? 0 =
      some (Cell.dictC [("compatibility", PyVal.ref 1)]) ∧
    ((filter_original_workspace_json_heap
        [Cell.dictC [("compatibility", PyVal.ref 1)],
         Cell.listC [PyVal.ref 2],
         Cell.dictC [("image", PyVal.vstr "img"), ("version", PyVal.vstr "1")]]
        0 (some 0)).elim [] (fun t => t.2)).get? 1 =
      some (Cell.listC [PyVal.ref 2]) := by
  have h₁ := (c10_no_input_mutation.1 inspectorAllSuccess
    [Cell.dictC [("compatibility", PyVal.ref 1)],
     Cell.listC [PyVal.ref 2],
     Cell.dictC [("image", PyVal.vstr "img"), ("version", PyVal.vstr "1")]]
    0 initialRunState
    (some (PyVal.ref 3))
    { stats := { pullable_workspaces := 1 }, inspected := [("img", true)] }
    [Cell.dictC [("compatibility", PyVal.ref 1)],
     Cell.listC [PyVal.ref 2],
     Cell.dictC [("image", PyVal.vstr "img"), ("version", PyVal.vstr "1")],
     Cell.dictC [("compatibility", PyVal.ref 4)],
     Cell.listC [PyVal.ref 2]] rfl).2
  have h₂ := ((c10_no_input_mutation.2
    [Cell.dictC [("compatibility", PyVal.ref 1)],
     Cell.listC [PyVal.ref 2],
     Cell.dictC [("image", PyVal.vstr "img"), ("version", PyVal.vstr "1")]]
    0 (some 0)
    (some (PyVal.ref 3))
    [Cell.dictC [("compatibility", PyVal.ref 1)],
     Cell.listC [PyVal.ref 2],
     Cell.dictC [("image", PyVal.vstr "img"), ("version", PyVal.vstr "1")],
     Cell.dictC [("compatibility", PyVal.ref 4)],
     Cell.listC [PyVal.ref 2]] rfl).1) 1 (by decide)
  exact ⟨h₁, h₂⟩
